import Mathlib

/-!
PANDA instrumentation core: TCG op-chain utilities, CPU-exit trigger,
syscall context map and hook registry.

A shallow embedding of `panda/src/tcg-utils.cpp` together with the data
declared in `plugins/hooks3/hooks3.h` and `plugins/syscalls2/syscalls2.h`.

Pointers into `tcg_ctx.gen_op_buf` are represented by the index of the op
they point at (`TCGOp *op = &tcg_ctx.gen_op_buf[oi]`), `NULL` by `none`.
Loops carry an iteration budget: the number of times the loop body may run.
-/

namespace Panda

/-! ## Data model of the TCG op buffer -/

/-- Modelled from the spec: the opcode enumeration is declared in the
emulator's headers, not among the sources at hand. It has the two opcodes
the utilities test for, `INDEX_op_insn_start` ("guest instruction begins
here") and `INDEX_op_exit_tb` ("block exit here"), the opcode of a spliced
invocation node (`INDEX_op_call`), and the remaining opcodes, here
`INDEX_op_other n`. -/
inductive TCGOpcode where
  | INDEX_op_insn_start
  | INDEX_op_exit_tb
  | INDEX_op_call
  | INDEX_op_other (n : Nat)
  deriving DecidableEq, Repr

/-- Modelled from the spec: `TCGOp` is declared in the emulator's headers, not
among the sources at hand. A node of the "singly-linked
intermediate-representation list with raw prev/next traversal": the fields
the utilities read are its opcode `opc`, the index `next` of the following
op in `gen_op_buf` and the index `args` of its first argument in
`gen_opparam_buf`; `prev` is the index of the preceding op. -/
structure TCGOp where
  opc : TCGOpcode
  next : Nat
  prev : Nat
  args : Nat
  deriving DecidableEq, Repr

/-- Modelled from the spec: the type of `tcg_ctx` is declared in the emulator's
headers, not among the sources at hand. The part the utilities read: the
op buffer `gen_op_buf` (entry 0 is the list sentinel; the list holds the ops
allocated so far) and the op parameter buffer `gen_opparam_buf`. -/
structure TCGContext where
  gen_op_buf : List TCGOp
  gen_opparam_buf : List Nat
  deriving DecidableEq, Repr

/-- Build configuration, the two macros tested by the `#if` of
`find_guest_insn_by_addr`: width of a guest address (`TARGET_LONG_BITS`, the
width of `target_ulong`) and of a host register (`TCG_TARGET_REG_BITS`, the
width of a `TCGArg`), in bits. -/
structure TargetConfig where
  TARGET_LONG_BITS : Nat
  TCG_TARGET_REG_BITS : Nat
  deriving DecidableEq, Repr

/-- Ways a run of one of the search loops can fail to return: an index
outside the op buffer was dereferenced (`out_of_range`), an argument was
read outside the parameter buffer (`param_out_of_range`), or the iteration
budget ran out. -/
inductive Fault where
  | out_of_range
  | param_out_of_range
  | out_of_fuel
  deriving DecidableEq, Repr

/-- Outcome of a search: a fault, or the returned pointer (`none` is `NULL`,
`some oi` is `&tcg_ctx.gen_op_buf[oi]`). -/
inductive SearchResult where
  | fault (f : Fault)
  | ret (p : Option Nat)
  deriving DecidableEq, Repr

/-! ## The search loops of `tcg-utils.cpp` -/

/-- Loop of `find_first_guest_insn`, started at op index `oi`; the first
argument bounds the number of executions of the loop body. -/
def find_first_loop (buf : List TCGOp) : Nat → Nat → SearchResult
  | 0, oi => if oi = 0 then .ret none else .fault .out_of_fuel
  | fuel + 1, oi =>
    if oi = 0 then .ret none
    else
      match buf[oi]? with
      | none => .fault .out_of_range
      | some op =>
        if op.opc = TCGOpcode.INDEX_op_insn_start then .ret (some oi)
        else find_first_loop buf fuel op.next

/-- Embedding of `find_first_guest_insn`: the walk starts at
`gen_op_buf[0].next`. -/
def find_first_guest_insn (ctx : TCGContext) (fuel : Nat) : SearchResult :=
  match ctx.gen_op_buf[0]? with
  | none => .fault .out_of_range
  | some s => find_first_loop ctx.gen_op_buf fuel s.next

/-- Loop of `find_last_guest_insn`; `last_op` is the op visited in the
previous iteration (`NULL` before the first). -/
def find_last_loop (buf : List TCGOp) : Nat → Nat → Option Nat → SearchResult
  | 0, oi, _ => if oi = 0 then .ret none else .fault .out_of_fuel
  | fuel + 1, oi, last_op =>
    if oi = 0 then .ret none
    else
      match buf[oi]? with
      | none => .fault .out_of_range
      | some op =>
        if op.opc = TCGOpcode.INDEX_op_exit_tb then .ret last_op
        else find_last_loop buf fuel op.next (some oi)

/-- Embedding of `find_last_guest_insn`. -/
def find_last_guest_insn (ctx : TCGContext) (fuel : Nat) : SearchResult :=
  match ctx.gen_op_buf[0]? with
  | none => .fault .out_of_range
  | some s => find_last_loop ctx.gen_op_buf fuel s.next none

/-- The guest address an `insn_start` op records, as computed inside
`find_guest_insn_by_addr` from `args = &gen_opparam_buf[op->args]`.
When `TARGET_LONG_BITS > TCG_TARGET_REG_BITS` the source shifts `args[1]`
(a host-register word; the bits shifted out of the word are lost) left by 32
before the cast to `target_ulong`, then ors in `args[0]`; otherwise it
assigns `args[0]` to the `target_ulong`. -/
def insn_start_addr (cfg : TargetConfig) (params : List Nat) (args : Nat) : Option Nat :=
  if cfg.TARGET_LONG_BITS > cfg.TCG_TARGET_REG_BITS then
    match params[args + 1]?, params[args]? with
    | some a1, some a0 =>
      some ((((a1 * 2 ^ 32) % 2 ^ cfg.TCG_TARGET_REG_BITS) % 2 ^ cfg.TARGET_LONG_BITS ||| a0)
        % 2 ^ cfg.TARGET_LONG_BITS)
    | _, _ => none
  else
    match params[args]? with
    | some a0 => some (a0 % 2 ^ cfg.TARGET_LONG_BITS)
    | none => none

/-- Loop of `find_guest_insn_by_addr`. -/
def find_by_addr_loop (cfg : TargetConfig) (ctx : TCGContext) (addr : Nat) :
    Nat → Nat → SearchResult
  | 0, oi => if oi = 0 then .ret none else .fault .out_of_fuel
  | fuel + 1, oi =>
    if oi = 0 then .ret none
    else
      match ctx.gen_op_buf[oi]? with
      | none => .fault .out_of_range
      | some op =>
        if op.opc = TCGOpcode.INDEX_op_insn_start then
          match insn_start_addr cfg ctx.gen_opparam_buf op.args with
          | none => .fault .param_out_of_range
          | some a =>
            if addr = a then .ret (some oi)
            else find_by_addr_loop cfg ctx addr fuel op.next
        else find_by_addr_loop cfg ctx addr fuel op.next

/-- Embedding of `find_guest_insn_by_addr`. -/
def find_guest_insn_by_addr (cfg : TargetConfig) (ctx : TCGContext) (addr : Nat)
    (fuel : Nat) : SearchResult :=
  match ctx.gen_op_buf[0]? with
  | none => .fault .out_of_range
  | some s => find_by_addr_loop cfg ctx addr fuel s.next

/-! ## Chains -/

/-- The list `l` is the sequence of op indices met when following `next`
from op index `oi` until the sentinel index 0 is reached. -/
def isChainFrom (buf : List TCGOp) : Nat → List Nat → Bool
  | oi, [] => oi == 0
  | oi, i :: rest =>
    oi != 0 && oi == i &&
      match buf[i]? with
      | none => false
      | some op => isChainFrom buf op.next rest

/-- The list `l` is the op chain of the block: the ops in order from
`gen_op_buf[0].next` back to the sentinel. -/
def isOpChain (ctx : TCGContext) (l : List Nat) : Bool :=
  match ctx.gen_op_buf[0]? with
  | none => false
  | some s => isChainFrom ctx.gen_op_buf s.next l

/-- Opcode of the op at index `i`, if `i` is inside the buffer. -/
def opcAt (ctx : TCGContext) (i : Nat) : Option TCGOpcode :=
  (ctx.gen_op_buf[i]?).map TCGOp.opc

/-- The op at index `i` is an `insn_start` op. -/
def isInsnStart (ctx : TCGContext) (i : Nat) : Bool :=
  opcAt ctx i == some TCGOpcode.INDEX_op_insn_start

/-- The op at index `i` is an `exit_tb` op. -/
def isExitTb (ctx : TCGContext) (i : Nat) : Bool :=
  opcAt ctx i == some TCGOpcode.INDEX_op_exit_tb

/-- First argument `args[0]` of the op at index `i`, read from
`gen_opparam_buf[op->args]`. -/
def args0At (ctx : TCGContext) (i : Nat) : Option Nat :=
  (ctx.gen_op_buf[i]?).bind (fun op => ctx.gen_opparam_buf[op.args]?)

/-- The op at index `i` is an `insn_start` op whose `args[0]` is `addr`. -/
def isMarkerAt (ctx : TCGContext) (addr : Nat) (i : Nat) : Bool :=
  isInsnStart ctx i && (args0At ctx i == some addr)

/-- Every `insn_start` op of the chain `l` has its first argument inside
`gen_opparam_buf`, and that argument is a `target_ulong` value (the guest pc
written by the translator). -/
def markersWellFormed (cfg : TargetConfig) (ctx : TCGContext) (l : List Nat) : Bool :=
  l.all (fun i =>
    !isInsnStart ctx i ||
      match args0At ctx i with
      | some a => decide (a < 2 ^ cfg.TARGET_LONG_BITS)
      | none => false)

/-- Every `insn_start` op of the chain `l` has the arguments that
`find_guest_insn_by_addr` reads (`args[0]`, and `args[1]` when a guest
address is wider than a host register) inside `gen_opparam_buf`. -/
def paramsReadable (cfg : TargetConfig) (ctx : TCGContext) (l : List Nat) : Bool :=
  l.all (fun i =>
    match ctx.gen_op_buf[i]? with
    | none => false
    | some op =>
      !(op.opc == TCGOpcode.INDEX_op_insn_start) ||
        (insn_start_addr cfg ctx.gen_opparam_buf op.args).isSome)

/-! ## Splicing a callback invocation -/

/-- Modelled from the spec: `insert_call`, the splice behind `insert_call_1p`
and `insert_call_2p`, is declared in `panda/tcg-utils.h` and its body is not
among the sources at hand. Per the spec it "splices a new invocation node
into the sequence immediately following the anchor, preserving the anchor
and updating the anchor reference to the freshly inserted node". The new
node is an `INDEX_op_call` op allocated at the next free index of the op
buffer; its parameters (the callback reference, then the opaque arguments)
are appended to the parameter buffer; the anchor's `next` and the former
successor's `prev` are redirected to it. The result is the new context
together with the updated anchor reference; `none` when the anchor does not
point into the op buffer. -/
def insert_call (ctx : TCGContext) (after_op : Nat) (func : Nat) (vals : List Nat) :
    Option (TCGContext × Nat) :=
  match ctx.gen_op_buf[after_op]? with
  | none => none
  | some old =>
    let oi := ctx.gen_op_buf.length
    let new_op : TCGOp :=
      { opc := TCGOpcode.INDEX_op_call, next := old.next, prev := after_op,
        args := ctx.gen_opparam_buf.length }
    let buf1 := ctx.gen_op_buf.set after_op { old with next := oi }
    let buf2 :=
      match buf1[old.next]? with
      | some nx => buf1.set old.next { nx with prev := oi }
      | none => buf1
    some ({ gen_op_buf := buf2 ++ [new_op],
            gen_opparam_buf := ctx.gen_opparam_buf ++ func :: vals }, oi)

/-- Embedding of `insert_call_1p`: forwards to `insert_call` with one
argument. `after_op` is the op the anchor reference points at; the second
component of the result is the anchor reference after the call. -/
def insert_call_1p (ctx : TCGContext) (after_op : Nat) (func : Nat) (val : Nat) :
    Option (TCGContext × Nat) :=
  insert_call ctx after_op func [val]

/-- Embedding of `insert_call_2p`: forwards to `insert_call` with two
arguments. -/
def insert_call_2p (ctx : TCGContext) (after_op : Nat) (func : Nat) (val val2 : Nat) :
    Option (TCGContext × Nat) :=
  insert_call ctx after_op func [val, val2]

/-- The op at index `i` is an invocation node calling `func` on `vals`. -/
def isCallTo (ctx : TCGContext) (i : Nat) (func : Nat) (vals : List Nat) : Bool :=
  match ctx.gen_op_buf[i]? with
  | none => false
  | some op =>
    op.opc == TCGOpcode.INDEX_op_call &&
      ((ctx.gen_opparam_buf.drop op.args).take (vals.length + 1) == func :: vals)

/-- The walk of `find_last_guest_insn` replayed on a list of op indices:
`isExit` tells the `exit_tb` ops, `last_op` is the op seen just before. -/
def lastBeforeExit (isExit : Nat → Bool) : List Nat → Option Nat → Option Nat
  | [], _ => none
  | i :: rest, last_op => if isExit i then last_op else lastBeforeExit isExit rest (some i)

/-! ## Example blocks -/

/-- A block `insn_start(0x1000); other; insn_start(0x1004); other; exit_tb`. -/
def exampleBlock : TCGContext where
  gen_op_buf :=
    [ { opc := .INDEX_op_other 0, next := 1, prev := 5, args := 0 },
      { opc := .INDEX_op_insn_start, next := 2, prev := 0, args := 0 },
      { opc := .INDEX_op_other 7, next := 3, prev := 1, args := 1 },
      { opc := .INDEX_op_insn_start, next := 4, prev := 2, args := 2 },
      { opc := .INDEX_op_other 9, next := 5, prev := 3, args := 3 },
      { opc := .INDEX_op_exit_tb, next := 0, prev := 4, args := 4 } ]
  gen_opparam_buf := [0x1000, 0x2000, 0x1004, 0x2000, 0]

/-- A block `insn_start(0x4000); exit_tb`. -/
def tinyBlock : TCGContext where
  gen_op_buf :=
    [ { opc := .INDEX_op_other 0, next := 1, prev := 2, args := 0 },
      { opc := .INDEX_op_insn_start, next := 2, prev := 0, args := 0 },
      { opc := .INDEX_op_exit_tb, next := 0, prev := 1, args := 1 } ]
  gen_opparam_buf := [0x4000, 0]

/-- The block `tinyBlock` after a call to callback 77 with argument 5 has
been spliced in after its `insn_start` op. -/
def tinyBlockSpliced : TCGContext where
  gen_op_buf :=
    [ { opc := .INDEX_op_other 0, next := 1, prev := 2, args := 0 },
      { opc := .INDEX_op_insn_start, next := 3, prev := 0, args := 0 },
      { opc := .INDEX_op_exit_tb, next := 0, prev := 3, args := 1 },
      { opc := .INDEX_op_call, next := 2, prev := 1, args := 2 } ]
  gen_opparam_buf := [0x4000, 0, 77, 5]

/-- A block `insn_start(0x4000); other` with guest instructions but no
`exit_tb` op. -/
def noExitBlock : TCGContext where
  gen_op_buf :=
    [ { opc := .INDEX_op_other 0, next := 1, prev := 2, args := 0 },
      { opc := .INDEX_op_insn_start, next := 2, prev := 0, args := 0 },
      { opc := .INDEX_op_other 3, next := 0, prev := 1, args := 1 } ]
  gen_opparam_buf := [0x4000, 0]

/-- The 64-bit guest on 32-bit host configuration: a guest address takes two
host-register words. -/
def cfgWide : TargetConfig := { TARGET_LONG_BITS := 64, TCG_TARGET_REG_BITS := 32 }

/-- A block `insn_start; exit_tb` for the 64-on-32 configuration whose marker
has `args[0] = 0x1000` (low word) and `args[1] = 1` (high word), the words
of the guest address `0x100001000`. -/
def wideBlock : TCGContext where
  gen_op_buf :=
    [ { opc := .INDEX_op_other 0, next := 1, prev := 2, args := 0 },
      { opc := .INDEX_op_insn_start, next := 2, prev := 0, args := 0 },
      { opc := .INDEX_op_exit_tb, next := 0, prev := 1, args := 2 } ]
  gen_opparam_buf := [0x1000, 1, 0]

/-- The 64-bit guest on 64-bit host configuration. -/
def cfg64 : TargetConfig := { TARGET_LONG_BITS := 64, TCG_TARGET_REG_BITS := 64 }


/-! ## The CPU-exit trigger -/

/-- What `check_cpu_exit` reads from its surroundings: the result of
`panda_exit_cpu()` (the should-stop flag), the result of
`qemu_in_vcpu_thread()`, the global `first_cpu` (identified by a number) and
its field `first_cpu->running`. -/
structure CpuEnv where
  panda_exit_cpu : Bool
  qemu_in_vcpu_thread : Bool
  first_cpu : Nat
  first_cpu_running : Bool
  deriving DecidableEq, Repr

/-- How a piece of code run inside a block ends: it returns to the block, or
it leaves the block through `cpu_loop_exit` (a non-local exit). -/
inductive Control where
  | returned
  | loop_exit
  deriving DecidableEq, Repr

/-- Record of an execution: the CPUs on which `cpu_loop_exit` has been
invoked, oldest first. -/
structure ExecLog where
  cpu_loop_exits : List Nat
  deriving DecidableEq, Repr

/-- Modelled from the spec: `cpu_loop_exit` belongs to the emulator and is not
among the sources at hand; it "aborts the remainder of the current block
and returns control to the scheduler". It is recorded in the log and ends
the block code with a non-local exit. -/
def cpu_loop_exit (cpu : Nat) (log : ExecLog) : Control × ExecLog :=
  (Control.loop_exit, { cpu_loop_exits := log.cpu_loop_exits ++ [cpu] })

/-- Embedding of `check_cpu_exit`; `param` is the unused `void *`
argument. -/
def check_cpu_exit (env : CpuEnv) (_param : Nat) (log : ExecLog) : Control × ExecLog :=
  if env.panda_exit_cpu && env.qemu_in_vcpu_thread && env.first_cpu_running then
    cpu_loop_exit env.first_cpu log
  else
    (Control.returned, log)

/-- Two pieces of block code in sequence: the second runs only if the first
returned; a non-local exit of the first ends the sequence. -/
def andThen (first second : ExecLog → Control × ExecLog) (log : ExecLog) :
    Control × ExecLog :=
  match first log with
  | (Control.returned, log1) => second log1
  | (Control.loop_exit, log1) => (Control.loop_exit, log1)

/-- A state in which the stop flag is set and the caller is the vCPU thread,
but `first_cpu->running` is false. -/
def envNotRunning : CpuEnv :=
  { panda_exit_cpu := true, qemu_in_vcpu_thread := true, first_cpu := 0,
    first_cpu_running := false }

/-- A state in which all three conditions of `check_cpu_exit` hold. -/
def envStopping : CpuEnv :=
  { panda_exit_cpu := true, qemu_in_vcpu_thread := true, first_cpu := 0,
    first_cpu_running := true }

/-! ## The syscall context map `running_syscalls` -/

/-- Key of `context_map_t`: a `std::pair<target_ptr_t, target_ptr_t>`. -/
abbrev ctx_key_t := Nat × Nat

/-- Modelled from the spec: `struct syscall_ctx` is only forward-declared in
`syscalls2.h`; per the spec a syscall context holds the "call number,
decoded arguments [...] and the return address expected to fire the return
hook". -/
structure syscall_ctx_t where
  no : Nat
  args : List Nat
  retaddr : Nat
  deriving DecidableEq, Repr

/-- The ordering `operator<` of `std::pair` on keys (lexicographic). -/
def key_lt (a b : ctx_key_t) : Bool :=
  decide (a.1 < b.1) || (a.1 == b.1 && decide (a.2 < b.2))

/-- Contents of a `context_map_t` (a `std::map`), as the sequence of its
entries in iteration order. -/
abbrev context_map_t := List (ctx_key_t × syscall_ctx_t)

/-- Modelled from the spec: the operations on `running_syscalls` live in the
plugin body, which is not among the sources at hand; the spec has a context
"created on entry-hook firing" that "replaces" a context already under the
key. This is `running_syscalls[k] = v` on a `std::map`: the entry is
placed at its position in key order, replacing an entry with an equivalent
key. -/
def map_assign : context_map_t → ctx_key_t → syscall_ctx_t → context_map_t
  | [], k, v => [(k, v)]
  | (k', v') :: rest, k, v =>
    if key_lt k k' then (k, v) :: (k', v') :: rest
    else if key_lt k' k then (k', v') :: map_assign rest k v
    else (k, v) :: rest

/-- Modelled from the spec: `running_syscalls.insert({k, v})` on a
`std::map`, the alternative policy for a second entry event: the entry is
placed at its position in key order unless an entry with an equivalent key
exists, in which case the map is left as it is. -/
def map_insert : context_map_t → ctx_key_t → syscall_ctx_t → context_map_t
  | [], k, v => [(k, v)]
  | (k', v') :: rest, k, v =>
    if key_lt k k' then (k, v) :: (k', v') :: rest
    else if key_lt k' k then (k', v') :: map_insert rest k v
    else (k', v') :: rest

/-- Modelled from the spec: `running_syscalls.erase(k)`, by which a context
is "destroyed on the matching return-hook firing or on an explicit external
invalidation". -/
def map_erase : context_map_t → ctx_key_t → context_map_t
  | [], _ => []
  | (k', v') :: rest, k =>
    if key_lt k k' then (k', v') :: rest
    else if key_lt k' k then (k', v') :: map_erase rest k
    else rest

/-- One mutation of `running_syscalls`. -/
inductive MapOp where
  | assign (k : ctx_key_t) (v : syscall_ctx_t)
  | insert (k : ctx_key_t) (v : syscall_ctx_t)
  | erase (k : ctx_key_t)
  deriving DecidableEq, Repr

/-- Effect of one mutation. -/
def map_step (m : context_map_t) : MapOp → context_map_t
  | .assign k v => map_assign m k v
  | .insert k v => map_insert m k v
  | .erase k => map_erase m k

/-- The map after a sequence of mutations of the initially empty
`running_syscalls`. -/
def map_run (ops : List MapOp) : context_map_t :=
  ops.foldl map_step []

/-- The contexts the map holds under key `k`. -/
def contexts_for (m : context_map_t) (k : ctx_key_t) : List syscall_ctx_t :=
  (m.filter (fun e => e.1 == k)).map Prod.snd

/-- Modelled from the spec: lookup in `running_syscalls` ("look up the key"),
the context stored under `k` if there is one. -/
def map_find (m : context_map_t) (k : ctx_key_t) : Option syscall_ctx_t :=
  (m.find? (fun e => e.1 == k)).map Prod.snd

/-- State of the syscall tracker: the map `running_syscalls` and the record of
the invocations of the return-switch made so far (key and context passed),
oldest first. -/
structure SyscallTracker where
  running_syscalls : context_map_t
  return_switch_calls : List (ctx_key_t × syscall_ctx_t)
  deriving DecidableEq, Repr

/-- The tracker at start-up. -/
def SyscallTracker.start : SyscallTracker :=
  { running_syscalls := [], return_switch_calls := [] }

/-- Modelled from the spec: the entry side (`syscall_enter_switch_*`), whose
bodies are not among the sources at hand. The enter-switch "populates and
stores a Syscall Context under a computed key": the context captured at
entry is put into `running_syscalls` under `k`, replacing a context already
pending under that key. -/
def syscall_enter_switch (s : SyscallTracker) (k : ctx_key_t) (ctx : syscall_ctx_t) :
    SyscallTracker :=
  { s with running_syscalls := map_assign s.running_syscalls k ctx }

/-- Modelled from the spec: `hook_syscall_return` is declared in `syscalls2.h`,
its body is not among the sources at hand. Per the spec the return hook
callback does "look up the key; if absent, the return is unmatched [...]
report and drop, do not fail. If present, remove it from the map and
dispatch [...] to the matching return-switch function, passing the stored
context". -/
def hook_syscall_return (s : SyscallTracker) (k : ctx_key_t) : SyscallTracker :=
  match map_find s.running_syscalls k with
  | none => s
  | some ctx =>
    { running_syscalls := map_erase s.running_syscalls k,
      return_switch_calls := s.return_switch_calls ++ [(k, ctx)] }

/-- An event seen by the tracker: a syscall entry for a key with the context
captured there, or the return hook firing for a key. -/
inductive TrackerEvent where
  | entry (k : ctx_key_t) (ctx : syscall_ctx_t)
  | ret (k : ctx_key_t)
  deriving DecidableEq, Repr

/-- Key an event is about. -/
def TrackerEvent.key : TrackerEvent → ctx_key_t
  | .entry k _ => k
  | .ret k => k

/-- Effect of one event on the tracker. -/
def tracker_step (s : SyscallTracker) : TrackerEvent → SyscallTracker
  | .entry k ctx => syscall_enter_switch s k ctx
  | .ret k => hook_syscall_return s k

/-- The tracker after a sequence of events, starting from `s`. -/
def tracker_run (s : SyscallTracker) (events : List TrackerEvent) : SyscallTracker :=
  events.foldl tracker_step s

/-- The context of the spec's scenario: call number 2 with two arguments. -/
def exampleCtx : syscall_ctx_t := { no := 2, args := [10, 11], retaddr := 0x5000 }

/-! ## The hook registry -/

/-- A plugin registration handle (`typedef uint32_t PluginReg`). -/
abbrev PluginReg := Nat

/-- The record `struct Hook` of `hooks3.h`; the callback `cb` is identified
by a number. -/
structure Hook where
  pc : Nat
  asid : Nat
  plugin_num : PluginReg
  cb : Nat
  always_starts_block : Bool
  deriving DecidableEq, Repr

/-- State of the hook registry: the registered hooks in registration order,
the handles of the plugins currently registered, and the next handle to
hand out. -/
structure Registry where
  hooks : List Hook
  plugins : List PluginReg
  next_plugin : PluginReg
  deriving DecidableEq, Repr

/-- The registry at start-up: no hook, no plugin; handles are non-zero. -/
def Registry.empty : Registry :=
  { hooks := [], plugins := [], next_plugin := 1 }

/-- Modelled from the spec: `register_plugin` is declared in `hooks3.h`, its
body is not among the sources at hand. It "allocates and returns a fresh
non-zero id" and "fails fatally only on identifier-space exhaustion" (a
`PluginReg` is a `uint32_t`); `none` is the fatal failure. -/
def register_plugin (r : Registry) : Option (PluginReg × Registry) :=
  if r.next_plugin < 2 ^ 32 then
    some (r.next_plugin,
      { r with plugins := r.next_plugin :: r.plugins, next_plugin := r.next_plugin + 1 })
  else none

/-- Modelled from the spec: `add_hook` is declared in `hooks3.h`, its body is
not among the sources at hand. It "inserts a Hook into the registry's
index", with "no uniqueness constraint"; an "invalid plugin id passed to
registry operations" is a configuration error that fails fast, leaving the
registry as it is. -/
def add_hook (r : Registry) (num : PluginReg) (pc asid : Nat) (always_starts_block : Bool)
    (fn : Nat) : Registry :=
  if num ∈ r.plugins then
    { r with hooks := r.hooks ++
        [{ pc := pc, asid := asid, plugin_num := num, cb := fn,
           always_starts_block := always_starts_block }] }
  else r

/-- Modelled from the spec: `unregister_plugin` is declared in `hooks3.h`, its
body is not among the sources at hand. It "removes every hook owned by
`plugin`" and ends the life of the handle. -/
def unregister_plugin (r : Registry) (num : PluginReg) : Registry :=
  { r with hooks := r.hooks.filter (fun h => h.plugin_num != num),
           plugins := r.plugins.filter (fun p => p != num) }

/-- A hook applies to a block covering guest addresses `[lo, hi)` in address
space `asid`: its `pc` is in the range and its `asid` is the wildcard 0 or
that of the block. -/
def hook_matches (lo hi asid : Nat) (h : Hook) : Bool :=
  decide (lo ≤ h.pc) && decide (h.pc < hi) && (h.asid == 0 || h.asid == asid)

/-- Modelled from the spec: the block-compilation query, whose body is not
among the sources at hand: "given the address range and address-space id of
a block about to be compiled, return the ordered set of Hooks whose `pc`
falls within the range and whose `asid` matches (wildcard or exact)". -/
def hooks_for_block (r : Registry) (lo hi asid : Nat) : List Hook :=
  r.hooks.filter (hook_matches lo hi asid)

/-- A call made by a plugin on the registry. -/
inductive RegistryCall where
  | add_hook (h : Hook)
  | unregister_plugin (num : PluginReg)
  deriving DecidableEq, Repr

/-- Effect of one call on the registry. -/
def registry_step (r : Registry) : RegistryCall → Registry
  | .add_hook h => add_hook r h.plugin_num h.pc h.asid h.always_starts_block h.cb
  | .unregister_plugin num => unregister_plugin r num

/-- The registry after a sequence of calls, starting from `r`. -/
def registry_run (r : Registry) (calls : List RegistryCall) : Registry :=
  calls.foldl registry_step r

/-- The hook `h` is registered after the calls `calls` made on a registry
whose registered plugins were `r.plugins` when the calls began, read off the
call history alone: the plugin of `h` was registered at the beginning, some
call in `calls` is `add_hook` of `h`, and no `unregister_plugin` of that
plugin occurs in `calls`, neither before that `add_hook` (the plugin id
would be invalid and the `add_hook` rejected) nor after it (the hook would
be removed). -/
def registered_after (r : Registry) (calls : List RegistryCall) (h : Hook) : Prop :=
  h.plugin_num ∈ r.plugins ∧
    ∃ before later, calls = before ++ RegistryCall.add_hook h :: later ∧
      RegistryCall.unregister_plugin h.plugin_num ∉ before ∧
      RegistryCall.unregister_plugin h.plugin_num ∉ later

/-- The registry after one plugin has registered. -/
def registryOnePlugin : Registry :=
  { hooks := [], plugins := [1], next_plugin := 2 }

/-- The registry after two plugins have registered. -/
def registryTwoPlugins : Registry :=
  { hooks := [], plugins := [2, 1], next_plugin := 3 }

/-- A hook at address `0x1008` in address space 7, owned by plugin 2. -/
def hookAt1008 : Hook :=
  { pc := 0x1008, asid := 7, plugin_num := 2, cb := 1, always_starts_block := false }

/-- The hook of the spec's scenario: address `0x1000`, any address space,
not block-starting, owned by plugin 1. -/
def hookAt1000 : Hook :=
  { pc := 0x1000, asid := 0, plugin_num := 1, cb := 0, always_starts_block := false }

/-! ## Basic facts about chains -/

theorem isChainFrom_nil (buf : List TCGOp) (oi : Nat) :
    isChainFrom buf oi [] = true ↔ oi = 0 := by
  simp [isChainFrom]

theorem isChainFrom_cons (buf : List TCGOp) (oi i : Nat) (rest : List Nat) :
    isChainFrom buf oi (i :: rest) = true ↔
      oi ≠ 0 ∧ oi = i ∧ ∃ op, buf[i]? = some op ∧ isChainFrom buf op.next rest = true := by
  simp only [isChainFrom, Bool.and_eq_true, bne_iff_ne, beq_iff_eq, ne_eq]
  cases h : buf[i]? with
  | none => simp
  | some op => simp [and_assoc]

theorem find_first_loop_eq_find (buf : List TCGOp) :
    ∀ (l : List Nat) (oi fuel : Nat), isChainFrom buf oi l = true → l.length ≤ fuel →
      find_first_loop buf fuel oi =
        .ret (l.find? (fun i => (buf[i]?).map TCGOp.opc == some TCGOpcode.INDEX_op_insn_start)) := by
  intro l
  induction l with
  | nil =>
    intro oi fuel h _
    rw [isChainFrom_nil] at h
    subst h
    cases fuel <;> simp [find_first_loop]
  | cons i rest ih =>
    intro oi fuel h hf
    rw [isChainFrom_cons] at h
    obtain ⟨hne, rfl, op, hop, hrest⟩ := h
    cases fuel with
    | zero => simp at hf
    | succ fuel =>
      have hf2 : rest.length ≤ fuel := by simpa using hf
      simp only [find_first_loop, hne, if_false, hop, List.find?_cons, Option.map_some']
      by_cases hopc : op.opc = TCGOpcode.INDEX_op_insn_start
      · simp [hopc]
      · have hb : (op.opc == TCGOpcode.INDEX_op_insn_start) = false := by simpa using hopc
        simp [hopc, hb, ih op.next fuel hrest hf2]

/-- C1: on a finite op chain `l`, `find_first_guest_insn` returns (given an
iteration budget of at least the chain length) the earliest `insn_start`
op in chain order, and returns `NULL` exactly when the chain holds no
`insn_start` op. -/
theorem find_first_guest_insn_earliest (ctx : TCGContext) (l : List Nat) (fuel : Nat)
    (hchain : isOpChain ctx l = true) (hfuel : l.length ≤ fuel) :
    ∃ r, find_first_guest_insn ctx fuel = .ret r ∧
      (∀ i, r = some i →
        isInsnStart ctx i = true ∧
          ∃ pre post, l = pre ++ i :: post ∧ ∀ j ∈ pre, isInsnStart ctx j = false) ∧
      (r = none ↔ ∀ j ∈ l, isInsnStart ctx j = false) := by
  unfold isOpChain at hchain
  unfold find_first_guest_insn
  cases hs : ctx.gen_op_buf[0]? with
  | none => simp [hs] at hchain
  | some s =>
    simp only [hs] at hchain
    refine ⟨_, find_first_loop_eq_find ctx.gen_op_buf l s.next fuel hchain hfuel, ?_, ?_⟩
    · intro i hi
      rw [List.find?_eq_some] at hi
      obtain ⟨hp, pre, post, hl, hpre⟩ := hi
      refine ⟨by simpa [isInsnStart, opcAt] using hp, pre, post, hl, ?_⟩
      intro j hj
      simpa [isInsnStart, opcAt] using hpre j hj
    · rw [List.find?_eq_none]
      simp [isInsnStart, opcAt]

/-- Witness for C1 on the example block. -/
theorem find_first_guest_insn_earliest_witness :
    ∃ r, find_first_guest_insn exampleBlock 5 = .ret r ∧
      (∀ i, r = some i →
        isInsnStart exampleBlock i = true ∧
          ∃ pre post, [1, 2, 3, 4, 5] = pre ++ i :: post ∧
            ∀ j ∈ pre, isInsnStart exampleBlock j = false) ∧
      (r = none ↔ ∀ j ∈ [1, 2, 3, 4, 5], isInsnStart exampleBlock j = false) :=
  find_first_guest_insn_earliest exampleBlock [1, 2, 3, 4, 5] 5 (by decide) (by decide)


theorem insn_start_addr_narrow (cfg : TargetConfig) (params : List Nat) (args a0 : Nat)
    (hcfg : cfg.TARGET_LONG_BITS ≤ cfg.TCG_TARGET_REG_BITS)
    (h0 : params[args]? = some a0) (hlt : a0 < 2 ^ cfg.TARGET_LONG_BITS) :
    insn_start_addr cfg params args = some a0 := by
  unfold insn_start_addr
  rw [if_neg (by omega)]
  simp [h0, Nat.mod_eq_of_lt hlt]

theorem find_by_addr_loop_eq_find (cfg : TargetConfig) (ctx : TCGContext) (addr : Nat)
    (hcfg : cfg.TARGET_LONG_BITS ≤ cfg.TCG_TARGET_REG_BITS) :
    ∀ (l : List Nat) (oi fuel : Nat), isChainFrom ctx.gen_op_buf oi l = true →
      markersWellFormed cfg ctx l = true → l.length ≤ fuel →
      find_by_addr_loop cfg ctx addr fuel oi = .ret (l.find? (isMarkerAt ctx addr)) := by
  intro l
  induction l with
  | nil =>
    intro oi fuel h _ _
    rw [isChainFrom_nil] at h
    subst h
    cases fuel <;> simp [find_by_addr_loop]
  | cons i rest ih =>
    intro oi fuel h hwf hf
    rw [isChainFrom_cons] at h
    obtain ⟨hne, rfl, op, hop, hrest⟩ := h
    have hwf2 : markersWellFormed cfg ctx rest = true := by
      simp only [markersWellFormed, List.all_cons, Bool.and_eq_true] at hwf ⊢
      exact hwf.2
    cases fuel with
    | zero => simp at hf
    | succ fuel =>
      have hf2 : rest.length ≤ fuel := by simpa using hf
      have hrec := ih op.next fuel hrest hwf2 hf2
      simp only [find_by_addr_loop, hne, if_false, hop, List.find?_cons]
      by_cases hopc : op.opc = TCGOpcode.INDEX_op_insn_start
      · have his : isInsnStart ctx oi = true := by simp [isInsnStart, opcAt, hop, hopc]
        have hhead : (match args0At ctx oi with
            | some a => decide (a < 2 ^ cfg.TARGET_LONG_BITS)
            | none => false) = true := by
          simp only [markersWellFormed, List.all_cons, Bool.and_eq_true, his, Bool.not_true,
            Bool.false_or] at hwf
          exact hwf.1
        cases ha : args0At ctx oi with
        | none => simp [ha] at hhead
        | some a0 =>
          simp only [ha, decide_eq_true_eq] at hhead
          have hp : ctx.gen_opparam_buf[op.args]? = some a0 := by
            simpa [args0At, hop] using ha
          rw [if_pos hopc, insn_start_addr_narrow cfg _ _ a0 hcfg hp hhead]
          by_cases haddr : addr = a0
          · subst haddr
            simp [isMarkerAt, his, ha]
          · have hm : isMarkerAt ctx addr oi = false := by
              simp only [isMarkerAt, his, ha, Bool.true_and, beq_eq_false_iff_ne, ne_eq,
                Option.some.injEq]
              exact fun h => haddr h.symm
            simp [haddr, hm, hrec]
      · have hm : isMarkerAt ctx addr oi = false := by
          simp [isMarkerAt, isInsnStart, opcAt, hop, hopc]
        simp [hopc, hm, hrec]

/-- C2: when a guest address fits a host register, on a well-formed op chain
`l` the search `find_guest_insn_by_addr addr` returns the first op of `l`
that is an `insn_start` op with `args[0] = addr`; it returns `NULL` exactly
when the chain holds no such op. A returned op is always an `insn_start`
op, so an op of another opcode is never returned, whatever its first
argument. -/
theorem find_guest_insn_by_addr_first_match (cfg : TargetConfig) (ctx : TCGContext)
    (addr : Nat) (l : List Nat) (fuel : Nat)
    (hcfg : cfg.TARGET_LONG_BITS ≤ cfg.TCG_TARGET_REG_BITS)
    (hchain : isOpChain ctx l = true) (hwf : markersWellFormed cfg ctx l = true)
    (hfuel : l.length ≤ fuel) :
    ∃ r, find_guest_insn_by_addr cfg ctx addr fuel = .ret r ∧
      (∀ i, r = some i →
        isInsnStart ctx i = true ∧ args0At ctx i = some addr ∧
          ∃ pre post, l = pre ++ i :: post ∧
            ∀ j ∈ pre, ¬ (isInsnStart ctx j = true ∧ args0At ctx j = some addr)) ∧
      (r = none ↔ ∀ j ∈ l, ¬ (isInsnStart ctx j = true ∧ args0At ctx j = some addr)) := by
  unfold isOpChain at hchain
  unfold find_guest_insn_by_addr
  cases hs : ctx.gen_op_buf[0]? with
  | none => simp [hs] at hchain
  | some s =>
    simp only [hs] at hchain
    refine ⟨_, find_by_addr_loop_eq_find cfg ctx addr hcfg l s.next fuel hchain hwf hfuel, ?_, ?_⟩
    · intro i hi
      rw [List.find?_eq_some] at hi
      obtain ⟨hp, pre, post, hl, hpre⟩ := hi
      simp only [isMarkerAt, Bool.and_eq_true, beq_iff_eq] at hp
      refine ⟨hp.1, hp.2, pre, post, hl, ?_⟩
      intro j hj
      have hnot := hpre j hj
      intro hboth
      simp [isMarkerAt, hboth.1, hboth.2] at hnot
    · rw [List.find?_eq_none]
      simp [isMarkerAt]

/-- Witness for C2 on the example block: `0x2000` is the first argument of
two ops that are not `insn_start` ops, and the search returns `NULL`. -/
theorem find_guest_insn_by_addr_first_match_witness :
    ∃ r, find_guest_insn_by_addr cfg64 exampleBlock 0x2000 5 = .ret r ∧
      (∀ i, r = some i →
        isInsnStart exampleBlock i = true ∧ args0At exampleBlock i = some 0x2000 ∧
          ∃ pre post, [1, 2, 3, 4, 5] = pre ++ i :: post ∧
            ∀ j ∈ pre,
              ¬ (isInsnStart exampleBlock j = true ∧ args0At exampleBlock j = some 0x2000)) ∧
      (r = none ↔ ∀ j ∈ [1, 2, 3, 4, 5],
        ¬ (isInsnStart exampleBlock j = true ∧ args0At exampleBlock j = some 0x2000)) :=
  find_guest_insn_by_addr_first_match cfg64 exampleBlock 0x2000 [1, 2, 3, 4, 5] 5
    (by decide) (by decide) (by decide) (by decide)

/-! ## `find_last_guest_insn` -/

theorem isExitTb_of_lookup (ctx : TCGContext) (i : Nat) (op : TCGOp)
    (hop : ctx.gen_op_buf[i]? = some op) :
    isExitTb ctx i = true ↔ op.opc = TCGOpcode.INDEX_op_exit_tb := by
  simp [isExitTb, opcAt, hop]

theorem find_last_loop_split (ctx : TCGContext) (e : Nat) (post : List Nat)
    (he : isExitTb ctx e = true) :
    ∀ (pre : List Nat) (oi fuel : Nat) (last_op : Option Nat),
      isChainFrom ctx.gen_op_buf oi (pre ++ e :: post) = true →
      (∀ j ∈ pre, isExitTb ctx j = false) → pre.length < fuel →
      find_last_loop ctx.gen_op_buf fuel oi last_op =
        .ret (match pre.getLast? with
          | some r => some r
          | none => last_op) := by
  intro pre
  induction pre with
  | nil =>
    intro oi fuel last_op h _ hf
    rw [List.nil_append, isChainFrom_cons] at h
    obtain ⟨hne, rfl, op, hop, -⟩ := h
    have hopc := (isExitTb_of_lookup ctx oi op hop).1 he
    cases fuel with
    | zero => simp at hf
    | succ fuel => simp [find_last_loop, hne, hop, hopc]
  | cons i rest ih =>
    intro oi fuel last_op h hpre hf
    rw [List.cons_append, isChainFrom_cons] at h
    obtain ⟨hne, rfl, op, hop, hrest⟩ := h
    have hopc : ¬ op.opc = TCGOpcode.INDEX_op_exit_tb := by
      intro hc
      have h1 := (isExitTb_of_lookup ctx oi op hop).2 hc
      have h2 := hpre oi (List.mem_cons_self _ _)
      rw [h1] at h2
      exact Bool.noConfusion h2
    cases fuel with
    | zero => simp at hf
    | succ fuel =>
      have hf2 : rest.length < fuel := by simpa using hf
      have hrec := ih op.next fuel (some oi) hrest
        (fun j hj => hpre j (List.mem_cons_of_mem _ hj)) hf2
      simp only [find_last_loop, hne, if_false, hop, hopc, hrec]
      cases rest with
      | nil => simp
      | cons j rest2 =>
        rw [List.getLast?_cons_cons]
        cases hgl : (j :: rest2).getLast? with
        | none => simp at hgl
        | some x => rfl

theorem find_last_loop_some (ctx : TCGContext) (r : Nat) :
    ∀ (l : List Nat) (oi fuel : Nat) (last_op : Option Nat),
      isChainFrom ctx.gen_op_buf oi l = true →
      find_last_loop ctx.gen_op_buf fuel oi last_op = .ret (some r) →
      (∃ e post, l = e :: post ∧ isExitTb ctx e = true ∧ last_op = some r) ∨
      (∃ pre e post, l = pre ++ r :: e :: post ∧
        (∀ j ∈ pre ++ [r], isExitTb ctx j = false) ∧ isExitTb ctx e = true) := by
  intro l
  induction l with
  | nil =>
    intro oi fuel last_op h hret
    rw [isChainFrom_nil] at h
    subst h
    cases fuel <;> simp [find_last_loop] at hret
  | cons i rest ih =>
    intro oi fuel last_op h hret
    rw [isChainFrom_cons] at h
    obtain ⟨hne, rfl, op, hop, hrest⟩ := h
    cases fuel with
    | zero => simp [find_last_loop, hne] at hret
    | succ fuel =>
      simp only [find_last_loop, hne, if_false, hop] at hret
      by_cases hopc : op.opc = TCGOpcode.INDEX_op_exit_tb
      · rw [if_pos hopc] at hret
        left
        exact ⟨oi, rest, rfl, (isExitTb_of_lookup ctx oi op hop).2 hopc,
          by simpa using hret⟩
      · rw [if_neg hopc] at hret
        have hnot : isExitTb ctx oi = false := by
          cases hx : isExitTb ctx oi with
          | false => rfl
          | true => exact absurd ((isExitTb_of_lookup ctx oi op hop).1 hx) hopc
        right
        rcases ih op.next fuel (some oi) hrest hret with ⟨e, post, hl, he, hlast⟩ |
          ⟨pre, e, post, hl, hpre, he⟩
        · have hro : oi = r := by simpa using hlast
          subst hro
          refine ⟨[], e, post, by simp [hl], ?_, he⟩
          intro j hj
          have : j = oi := by simpa using hj
          rw [this]; exact hnot
        · refine ⟨oi :: pre, e, post, by simp [hl], ?_, he⟩
          intro j hj
          have hj2 : j = oi ∨ j ∈ pre ++ [r] := by simpa using hj
          rcases hj2 with hj2 | hj2
          · rw [hj2]; exact hnot
          · exact hpre j hj2

/-- C3: on a well-formed op chain whose first `exit_tb` op `e` is preceded by
an op `r` (so `e` is not the first op of the chain), `find_last_guest_insn`
returns `r`, the op whose successor is `e`; on the empty chain it returns
`NULL`. -/
theorem find_last_guest_insn_before_exit (ctx : TCGContext) (l : List Nat) (fuel : Nat)
    (hchain : isOpChain ctx l = true) (hfuel : l.length ≤ fuel) :
    (∀ pre r e post, l = pre ++ r :: e :: post →
      (∀ j ∈ pre ++ [r], isExitTb ctx j = false) → isExitTb ctx e = true →
      find_last_guest_insn ctx fuel = .ret (some r) ∧
        (ctx.gen_op_buf[r]?).map TCGOp.next = some e) ∧
    (l = [] → find_last_guest_insn ctx fuel = .ret none) := by
  unfold isOpChain at hchain
  unfold find_last_guest_insn
  cases hs : ctx.gen_op_buf[0]? with
  | none => simp [hs] at hchain
  | some s =>
    simp only [hs] at hchain
    constructor
    · intro pre r e post hl hpre he
      have hl2 : l = (pre ++ [r]) ++ e :: post := by simp [hl]
      rw [hl2] at hchain
      have hlen : (pre ++ [r]).length < fuel := by
        have : l.length = pre.length + 1 + 1 + post.length := by
          rw [hl]; simp; omega
        simp; omega
      have hres := find_last_loop_split ctx e post he (pre ++ [r]) s.next fuel none hchain
        hpre hlen
      refine ⟨by simpa using hres, ?_⟩
      clear hres hlen
      have hsuffix : ∀ (p : List Nat) (oi : Nat),
          isChainFrom ctx.gen_op_buf oi (p ++ r :: e :: post) = true →
          (ctx.gen_op_buf[r]?).map TCGOp.next = some e := by
        intro p
        induction p with
        | nil =>
          intro oi h
          rw [List.nil_append, isChainFrom_cons] at h
          obtain ⟨-, -, op, hop, hrest⟩ := h
          rw [isChainFrom_cons] at hrest
          simp [hop, hrest.2.1]
        | cons a p ihp =>
          intro oi h
          rw [List.cons_append, isChainFrom_cons] at h
          obtain ⟨-, -, op, -, hrest⟩ := h
          exact ihp op.next hrest
      have hc : isChainFrom ctx.gen_op_buf s.next (pre ++ r :: e :: post) = true := by
        simpa using hchain
      exact hsuffix pre s.next hc
    · intro hl
      subst hl
      rw [isChainFrom_nil] at hchain
      cases fuel <;> simp [find_last_loop, hchain]

/-- Witness for C3 on the example block: the op before the `exit_tb` op 5
is op 4. -/
theorem find_last_guest_insn_before_exit_witness :
    (∀ pre r e post, [1, 2, 3, 4, 5] = pre ++ r :: e :: post →
      (∀ j ∈ pre ++ [r], isExitTb exampleBlock j = false) → isExitTb exampleBlock e = true →
      find_last_guest_insn exampleBlock 5 = .ret (some r) ∧
        (exampleBlock.gen_op_buf[r]?).map TCGOp.next = some e) ∧
    (([1, 2, 3, 4, 5] : List Nat) = [] → find_last_guest_insn exampleBlock 5 = .ret none) :=
  find_last_guest_insn_before_exit exampleBlock [1, 2, 3, 4, 5] 5 (by decide) (by decide)

/-- C4 as stated fails: on the example block `find_last_guest_insn` returns
op 4, which is not an `insn_start` op. -/
theorem find_last_guest_insn_not_marker :
    ¬ (∀ (ctx : TCGContext) (fuel r : Nat),
        find_last_guest_insn ctx fuel = .ret (some r) → isInsnStart ctx r = true) := by
  intro h
  have h4 := h exampleBlock 5 4 (by decide)
  exact absurd h4 (by decide)

/-- C4 (amended): whenever `find_last_guest_insn` returns a node `r` on an op
chain `l`, `r` is the op of the chain immediately preceding the first
`exit_tb` op: `l = pre ++ r :: e :: post` where `e` is an `exit_tb` op and
neither `r` nor any op before it is one. -/
theorem find_last_guest_insn_returns_op_before_exit (ctx : TCGContext) (l : List Nat)
    (fuel r : Nat) (hchain : isOpChain ctx l = true)
    (hret : find_last_guest_insn ctx fuel = .ret (some r)) :
    ∃ pre e post, l = pre ++ r :: e :: post ∧
      (∀ j ∈ pre ++ [r], isExitTb ctx j = false) ∧ isExitTb ctx e = true := by
  unfold isOpChain at hchain
  unfold find_last_guest_insn at hret
  cases hs : ctx.gen_op_buf[0]? with
  | none => simp [hs] at hchain
  | some s =>
    simp only [hs] at hchain hret
    rcases find_last_loop_some ctx r l s.next fuel none hchain hret with
      ⟨_, _, _, _, hnone⟩ | hres
    · exact Option.noConfusion hnone
    · exact hres

/-- Witness for the amended C4 on the example block. -/
theorem find_last_guest_insn_returns_op_before_exit_witness :
    ∃ pre e post, [1, 2, 3, 4, 5] = pre ++ 4 :: e :: post ∧
      (∀ j ∈ pre ++ [4], isExitTb exampleBlock j = false) ∧ isExitTb exampleBlock e = true :=
  find_last_guest_insn_returns_op_before_exit exampleBlock [1, 2, 3, 4, 5] 5 4
    (by decide) (by decide)

/-! ## Splicing: the op buffer after `insert_call` -/

theorem insert_call_new_node (ctx ctx' : TCGContext) (a n func : Nat) (vals : List Nat)
    (h : insert_call ctx a func vals = some (ctx', n)) :
    n = ctx.gen_op_buf.length ∧
    ctx'.gen_opparam_buf = ctx.gen_opparam_buf ++ func :: vals ∧
    ctx'.gen_op_buf.length = ctx.gen_op_buf.length + 1 ∧
    ∃ old, ctx.gen_op_buf[a]? = some old ∧
      ctx'.gen_op_buf[n]? =
        some ⟨TCGOpcode.INDEX_op_call, old.next, a, ctx.gen_opparam_buf.length⟩ := by
  unfold insert_call at h
  cases ha : ctx.gen_op_buf[a]? with
  | none => simp [ha] at h
  | some old =>
    simp only [ha, Option.some.injEq, Prod.mk.injEq] at h
    obtain ⟨rfl, rfl⟩ := h
    refine ⟨rfl, rfl, ?_, old, rfl, ?_⟩
    · split <;> simp
    · split <;> simp [List.getElem?_append_right]

theorem insert_call_old_node (ctx ctx' : TCGContext) (a n func : Nat) (vals : List Nat)
    (h : insert_call ctx a func vals = some (ctx', n)) (i : Nat) (op : TCGOp)
    (hi : ctx.gen_op_buf[i]? = some op) :
    ∃ op', ctx'.gen_op_buf[i]? = some op' ∧ op'.opc = op.opc ∧ op'.args = op.args ∧
      op'.next = if i = a then n else op.next := by
  have hlt : i < ctx.gen_op_buf.length := by
    rcases List.getElem?_eq_some_iff.1 hi with ⟨hlt, _⟩
    exact hlt
  unfold insert_call at h
  cases ha : ctx.gen_op_buf[a]? with
  | none => simp [ha] at h
  | some old =>
    simp only [ha, Option.some.injEq, Prod.mk.injEq] at h
    obtain ⟨rfl, rfl⟩ := h
    have halt : a < ctx.gen_op_buf.length := by
      rcases List.getElem?_eq_some_iff.1 ha with ⟨hlt, _⟩
      exact hlt
    have h1 : ∃ op1, (ctx.gen_op_buf.set a { old with next := ctx.gen_op_buf.length })[i]? = some op1 ∧
        op1.opc = op.opc ∧ op1.args = op.args ∧
        op1.next = if i = a then ctx.gen_op_buf.length else op.next := by
      by_cases hia : i = a
      · subst hia
        rw [ha] at hi
        cases hi
        exact ⟨{ op with next := ctx.gen_op_buf.length }, by simp [List.getElem?_set, halt],
          rfl, rfl, by simp⟩
      · refine ⟨op, ?_, rfl, rfl, by simp [hia]⟩
        rw [List.getElem?_set, if_neg (fun hc => hia hc.symm)]
        exact hi
    obtain ⟨op1, hop1, ho, hg, hn⟩ := h1
    dsimp only
    split
    · rename_i nx hnx
      by_cases hin : old.next = i
      · refine ⟨{ op1 with prev := ctx.gen_op_buf.length }, ?_, ho, hg, hn⟩
        subst hin
        rw [hop1] at hnx
        cases hnx
        rw [List.getElem?_append_left (by simpa using hlt)]
        simp [List.getElem?_set, hlt]
      · refine ⟨op1, ?_, ho, hg, hn⟩
        rw [List.getElem?_append_left (by simpa using hlt)]
        rw [List.getElem?_set, if_neg hin]
        exact hop1
    · refine ⟨op1, ?_, ho, hg, hn⟩
      rw [List.getElem?_append_left (by simpa using hlt)]
      exact hop1


theorem chain_mem_lookup (buf : List TCGOp) :
    ∀ (l : List Nat) (oi : Nat), isChainFrom buf oi l = true →
      ∀ i ∈ l, i ≠ 0 ∧ ∃ op, buf[i]? = some op := by
  intro l
  induction l with
  | nil => intro oi _ i hi; simp at hi
  | cons j rest ih =>
    intro oi h i hi
    rw [isChainFrom_cons] at h
    obtain ⟨hne, rfl, op, hop, hrest⟩ := h
    rcases List.mem_cons.1 hi with hi | hi
    · subst hi; exact ⟨hne, op, hop⟩
    · exact ih op.next hrest i hi

theorem chain_unique (buf : List TCGOp) :
    ∀ (l1 l2 : List Nat) (oi : Nat), isChainFrom buf oi l1 = true →
      isChainFrom buf oi l2 = true → l1 = l2 := by
  intro l1
  induction l1 with
  | nil =>
    intro l2 oi h1 h2
    rw [isChainFrom_nil] at h1
    cases l2 with
    | nil => rfl
    | cons j r2 =>
      rw [isChainFrom_cons] at h2
      exact absurd h1 h2.1
  | cons i r1 ih =>
    intro l2 oi h1 h2
    rw [isChainFrom_cons] at h1
    obtain ⟨hne, rfl, op, hop, hrest⟩ := h1
    cases l2 with
    | nil =>
      rw [isChainFrom_nil] at h2
      exact absurd h2 hne
    | cons j r2 =>
      rw [isChainFrom_cons] at h2
      obtain ⟨-, rfl, op2, hop2, hrest2⟩ := h2
      rw [hop] at hop2
      cases hop2
      rw [ih r2 op.next hrest hrest2]

theorem chain_suffix (buf : List TCGOp) (i : Nat) (s : List Nat) :
    ∀ (p : List Nat) (oi : Nat), isChainFrom buf oi (p ++ i :: s) = true →
      isChainFrom buf i (i :: s) = true := by
  intro p
  induction p with
  | nil =>
    intro oi h
    rw [List.nil_append, isChainFrom_cons] at h
    obtain ⟨hne, rfl, op, hop, hrest⟩ := h
    rw [isChainFrom_cons]
    exact ⟨hne, rfl, op, hop, hrest⟩
  | cons j p ih =>
    intro oi h
    rw [List.cons_append, isChainFrom_cons] at h
    obtain ⟨-, -, op, -, hrest⟩ := h
    exact ih op.next hrest

theorem chain_nodup (buf : List TCGOp) :
    ∀ (l : List Nat) (oi : Nat), isChainFrom buf oi l = true → l.Nodup := by
  intro l
  induction l with
  | nil => intro _ _; exact List.nodup_nil
  | cons i rest ih =>
    intro oi h
    have h0 := h
    rw [isChainFrom_cons] at h
    obtain ⟨hne, rfl, op, hop, hrest⟩ := h
    refine List.nodup_cons.2 ⟨?_, ih op.next hrest⟩
    intro hmem
    obtain ⟨p, s, hps⟩ := List.append_of_mem hmem
    rw [hps] at hrest
    have hsuf := chain_suffix buf oi s p op.next hrest
    have heq := chain_unique buf _ _ oi h0 hsuf
    have hlen := congrArg List.length heq
    rw [hps] at hlen
    simp at hlen
    omega

theorem chain_after_insert_unchanged (ctx ctx' : TCGContext) (a n func : Nat)
    (vals : List Nat) (h : insert_call ctx a func vals = some (ctx', n)) :
    ∀ (l : List Nat) (oi : Nat), a ∉ l → isChainFrom ctx.gen_op_buf oi l = true →
      isChainFrom ctx'.gen_op_buf oi l = true := by
  intro l
  induction l with
  | nil => intro oi _ hc; simpa [isChainFrom] using hc
  | cons i rest ih =>
    intro oi ha hc
    rw [isChainFrom_cons] at hc
    obtain ⟨hne, rfl, op, hop, hrest⟩ := hc
    obtain ⟨op', hop', -, -, hnext⟩ := insert_call_old_node ctx ctx' a n func vals h oi op hop
    have hia : oi ≠ a := fun hc => ha (by simp [hc])
    rw [if_neg hia] at hnext
    rw [isChainFrom_cons]
    refine ⟨hne, rfl, op', hop', ?_⟩
    rw [hnext]
    exact ih op.next (fun hc => ha (List.mem_cons_of_mem _ hc)) hrest

theorem chain_after_insert (ctx ctx' : TCGContext) (a n func : Nat) (vals : List Nat)
    (h : insert_call ctx a func vals = some (ctx', n)) (post : List Nat) :
    ∀ (pre : List Nat) (oi : Nat), a ∉ pre → a ∉ post →
      isChainFrom ctx.gen_op_buf oi (pre ++ a :: post) = true →
      isChainFrom ctx'.gen_op_buf oi (pre ++ a :: n :: post) = true := by
  intro pre
  induction pre with
  | nil =>
    intro oi _ hpost hc
    rw [List.nil_append] at hc ⊢
    rw [isChainFrom_cons] at hc
    obtain ⟨hne, rfl, op, hop, hrest⟩ := hc
    obtain ⟨op', hop', -, -, hnext⟩ := insert_call_old_node ctx ctx' oi n func vals h oi op hop
    rw [if_pos rfl] at hnext
    obtain ⟨hn, -, -, old, hold, hnew⟩ := insert_call_new_node ctx ctx' oi n func vals h
    rw [hop] at hold
    cases hold
    have hn0 : n ≠ 0 := by
      have : oi < ctx.gen_op_buf.length := (List.getElem?_eq_some_iff.1 hop).1
      omega
    rw [isChainFrom_cons]
    refine ⟨hne, rfl, op', hop', ?_⟩
    rw [hnext, isChainFrom_cons]
    refine ⟨hn0, rfl, _, hnew, ?_⟩
    exact chain_after_insert_unchanged ctx ctx' oi n func vals h post op.next hpost hrest
  | cons i pre ih =>
    intro oi hpre hpost hc
    rw [List.cons_append] at hc ⊢
    rw [isChainFrom_cons] at hc
    obtain ⟨hne, rfl, op, hop, hrest⟩ := hc
    obtain ⟨op', hop', -, -, hnext⟩ := insert_call_old_node ctx ctx' a n func vals h oi op hop
    have hia : oi ≠ a := fun hc => hpre (by simp [hc])
    rw [if_neg hia] at hnext
    rw [isChainFrom_cons]
    refine ⟨hne, rfl, op', hop', ?_⟩
    rw [hnext]
    exact ih op.next (fun hc => hpre (List.mem_cons_of_mem _ hc)) hpost hrest


theorem find_first_guest_insn_eq_find (ctx : TCGContext) (l : List Nat) (fuel : Nat)
    (hchain : isOpChain ctx l = true) (hfuel : l.length ≤ fuel) :
    find_first_guest_insn ctx fuel = .ret (l.find? (isInsnStart ctx)) := by
  unfold isOpChain at hchain
  unfold find_first_guest_insn
  cases hs : ctx.gen_op_buf[0]? with
  | none => simp [hs] at hchain
  | some s =>
    simp only [hs] at hchain
    exact find_first_loop_eq_find ctx.gen_op_buf l s.next fuel hchain hfuel

theorem find_last_loop_eq_lastBeforeExit (ctx : TCGContext) :
    ∀ (l : List Nat) (oi fuel : Nat) (last_op : Option Nat),
      isChainFrom ctx.gen_op_buf oi l = true → l.length ≤ fuel →
      find_last_loop ctx.gen_op_buf fuel oi last_op =
        .ret (lastBeforeExit (isExitTb ctx) l last_op) := by
  intro l
  induction l with
  | nil =>
    intro oi fuel last_op h _
    rw [isChainFrom_nil] at h
    subst h
    cases fuel <;> simp [find_last_loop, lastBeforeExit]
  | cons i rest ih =>
    intro oi fuel last_op h hf
    rw [isChainFrom_cons] at h
    obtain ⟨hne, rfl, op, hop, hrest⟩ := h
    cases fuel with
    | zero => simp at hf
    | succ fuel =>
      have hf2 : rest.length ≤ fuel := by simpa using hf
      simp only [find_last_loop, hne, if_false, hop, lastBeforeExit]
      by_cases hopc : op.opc = TCGOpcode.INDEX_op_exit_tb
      · have hx := (isExitTb_of_lookup ctx oi op hop).2 hopc
        simp [hopc, hx]
      · have hx : isExitTb ctx oi = false := by
          cases hx : isExitTb ctx oi with
          | false => rfl
          | true => exact absurd ((isExitTb_of_lookup ctx oi op hop).1 hx) hopc
        simp [hopc, hx, ih op.next fuel (some oi) hrest hf2]

theorem find_last_guest_insn_eq_lastBeforeExit (ctx : TCGContext) (l : List Nat) (fuel : Nat)
    (hchain : isOpChain ctx l = true) (hfuel : l.length ≤ fuel) :
    find_last_guest_insn ctx fuel = .ret (lastBeforeExit (isExitTb ctx) l none) := by
  unfold isOpChain at hchain
  unfold find_last_guest_insn
  cases hs : ctx.gen_op_buf[0]? with
  | none => simp [hs] at hchain
  | some s =>
    simp only [hs] at hchain
    exact find_last_loop_eq_lastBeforeExit ctx l s.next fuel none hchain hfuel

theorem lastBeforeExit_congr (p q : Nat → Bool) :
    ∀ (l : List Nat) (last_op : Option Nat), (∀ j ∈ l, p j = q j) →
      lastBeforeExit p l last_op = lastBeforeExit q l last_op := by
  intro l
  induction l with
  | nil => intro _ _; rfl
  | cons i rest ih =>
    intro last_op h
    simp only [lastBeforeExit, h i (List.mem_cons_self _ _)]
    rw [ih (some i) (fun j hj => h j (List.mem_cons_of_mem _ hj))]

theorem lastBeforeExit_mem (q : Nat → Bool) (r : Nat) :
    ∀ (l : List Nat) (last_op : Option Nat), lastBeforeExit q l last_op = some r →
      r ∈ l ∨ last_op = some r := by
  intro l
  induction l with
  | nil => intro _ h; simp [lastBeforeExit] at h
  | cons i rest ih =>
    intro last_op h
    simp only [lastBeforeExit] at h
    by_cases hq : q i = true
    · rw [if_pos hq] at h
      exact Or.inr h
    · rw [if_neg hq] at h
      rcases ih (some i) h with hr | hr
      · exact Or.inl (List.mem_cons_of_mem _ hr)
      · left
        have : i = r := by simpa using hr
        simp [this]

theorem lastBeforeExit_after_anchor (q : Nat → Bool) (a n : Nat) :
    ∀ (post : List Nat), a ∉ post →
      (lastBeforeExit q post (some a) ≠ some a →
        lastBeforeExit q post (some n) = lastBeforeExit q post (some a)) ∧
      (lastBeforeExit q post (some a) = some a →
        lastBeforeExit q post (some n) = some n) := by
  intro post hpost
  cases post with
  | nil => simp [lastBeforeExit]
  | cons e post2 =>
    simp only [lastBeforeExit]
    by_cases hq : q e = true
    · simp [hq]
    · simp only [hq, if_false]
      refine ⟨fun _ => rfl, fun h => ?_⟩
      exfalso
      rcases lastBeforeExit_mem q a post2 (some e) h with hm | hm
      · exact hpost (List.mem_cons_of_mem _ hm)
      · have : e = a := by simpa using hm
        exact hpost (by simp [this])

theorem lastBeforeExit_insert (q : Nat → Bool) (a n : Nat) (hn : q n = false)
    (post : List Nat) (hpost : a ∉ post) :
    ∀ (pre : List Nat) (last_op : Option Nat), a ∉ pre → last_op ≠ some a →
      (lastBeforeExit q (pre ++ a :: post) last_op ≠ some a →
        lastBeforeExit q (pre ++ a :: n :: post) last_op =
          lastBeforeExit q (pre ++ a :: post) last_op) ∧
      (lastBeforeExit q (pre ++ a :: post) last_op = some a →
        lastBeforeExit q (pre ++ a :: n :: post) last_op = some n) := by
  intro pre
  induction pre with
  | nil =>
    intro last_op _ hlast
    simp only [List.nil_append, lastBeforeExit]
    by_cases hq : q a = true
    · simp only [hq, if_true]
      exact ⟨fun _ => trivial, fun h => absurd h hlast⟩
    · simp only [hq, hn, if_false]
      exact lastBeforeExit_after_anchor q a n post hpost
  | cons i pre ih =>
    intro last_op hpre hlast
    simp only [List.cons_append, lastBeforeExit]
    by_cases hq : q i = true
    · simp only [hq, if_true]
      exact ⟨fun _ => trivial, fun h => absurd h hlast⟩
    · simp only [hq, if_false]
      have hia : i ≠ a := fun hc => hpre (by simp [hc])
      exact ih (some i) (fun hc => hpre (List.mem_cons_of_mem _ hc))
        (by simpa using hia)

theorem find_insert_non_match (q : Nat → Bool) (a n : Nat) (hn : q n = false)
    (post : List Nat) :
    ∀ (pre : List Nat), (pre ++ a :: n :: post).find? q = (pre ++ a :: post).find? q := by
  intro pre
  induction pre with
  | nil =>
    simp only [List.nil_append, List.find?_cons, hn]
  | cons i pre ih =>
    simp only [List.cons_append, List.find?_cons, ih]

theorem find_congr_on (p q : Nat → Bool) :
    ∀ (l : List Nat), (∀ j ∈ l, p j = q j) → l.find? p = l.find? q := by
  intro l
  induction l with
  | nil => intro _; rfl
  | cons i rest ih =>
    intro h
    simp only [List.find?_cons, h i (List.mem_cons_self _ _)]
    rw [ih (fun j hj => h j (List.mem_cons_of_mem _ hj))]


theorem insert_call_defined (ctx : TCGContext) (a func : Nat) (vals : List Nat) (old : TCGOp)
    (ha : ctx.gen_op_buf[a]? = some old) :
    ∃ ctx', insert_call ctx a func vals = some (ctx', ctx.gen_op_buf.length) := by
  unfold insert_call
  simp only [ha]
  exact ⟨_, rfl⟩

theorem opcAt_after_insert (ctx ctx' : TCGContext) (a n func : Nat) (vals : List Nat)
    (h : insert_call ctx a func vals = some (ctx', n)) (i : Nat) (op : TCGOp)
    (hi : ctx.gen_op_buf[i]? = some op) : opcAt ctx' i = opcAt ctx i := by
  obtain ⟨op', hop', hopc, -, -⟩ := insert_call_old_node ctx ctx' a n func vals h i op hi
  simp [opcAt, hi, hop', hopc]

theorem opcAt_new_node (ctx ctx' : TCGContext) (a n func : Nat) (vals : List Nat)
    (h : insert_call ctx a func vals = some (ctx', n)) :
    opcAt ctx' n = some TCGOpcode.INDEX_op_call := by
  obtain ⟨-, -, -, old, -, hnew⟩ := insert_call_new_node ctx ctx' a n func vals h
  simp [opcAt, hnew]

theorem isOpChain_after_insert (ctx ctx' : TCGContext) (a n func : Nat) (vals : List Nat)
    (h : insert_call ctx a func vals = some (ctx', n)) (pre post : List Nat)
    (hchain : isOpChain ctx (pre ++ a :: post) = true) :
    isOpChain ctx' (pre ++ a :: n :: post) = true := by
  unfold isOpChain at hchain ⊢
  cases hs : ctx.gen_op_buf[0]? with
  | none => simp [hs] at hchain
  | some s =>
    simp only [hs] at hchain
    have hnd := chain_nodup ctx.gen_op_buf _ s.next hchain
    have hpre : a ∉ pre := by
      intro hc
      have := (List.nodup_append.1 hnd).2.2
      exact this hc (List.mem_cons_self _ _)
    have hpost : a ∉ post := by
      have := (List.nodup_append.1 hnd).2.1
      exact (List.nodup_cons.1 this).1
    have ha0 : a ≠ 0 :=
      (chain_mem_lookup ctx.gen_op_buf _ s.next hchain a (by simp)).1
    obtain ⟨s', hs', -, -, hnext⟩ := insert_call_old_node ctx ctx' a n func vals h 0 s hs
    rw [if_neg (fun hc => ha0 hc.symm)] at hnext
    simp only [hs', hnext]
    exact chain_after_insert ctx ctx' a n func vals h post pre s.next hpre hpost hchain

theorem isCallTo_new_node (ctx ctx' : TCGContext) (a n func : Nat) (vals : List Nat)
    (h : insert_call ctx a func vals = some (ctx', n)) :
    isCallTo ctx' n func vals = true := by
  obtain ⟨-, hparams, -, old, -, hnew⟩ := insert_call_new_node ctx ctx' a n func vals h
  simp [isCallTo, hnew, hparams]

theorem isCallTo_after_insert (ctx ctx' : TCGContext) (a n func : Nat) (vals : List Nat)
    (h : insert_call ctx a func vals = some (ctx', n)) (i f : Nat) (vs : List Nat)
    (hcall : isCallTo ctx i f vs = true) : isCallTo ctx' i f vs = true := by
  unfold isCallTo at hcall
  cases hi : ctx.gen_op_buf[i]? with
  | none => simp [hi] at hcall
  | some op =>
    simp only [hi, Bool.and_eq_true, beq_iff_eq] at hcall
    obtain ⟨hopc, htake⟩ := hcall
    obtain ⟨op', hop', hopc', hargs', -⟩ := insert_call_old_node ctx ctx' a n func vals h i op hi
    obtain ⟨-, hparams, -, -⟩ := insert_call_new_node ctx ctx' a n func vals h
    have hlen : vs.length + 1 ≤ (ctx.gen_opparam_buf.drop op.args).length := by
      have := congrArg List.length htake
      simp only [List.length_take, List.length_cons] at this
      omega
    have hle : op.args ≤ ctx.gen_opparam_buf.length := by
      simp only [List.length_drop] at hlen
      omega
    unfold isCallTo
    simp only [hop', hopc', hopc, hargs', hparams, beq_self_eq_true, Bool.true_and, beq_iff_eq]
    rw [List.drop_append_of_le_length hle, List.take_append_of_le_length hlen]
    exact htake


theorem insert_call_queries (ctx ctx' : TCGContext) (l : List Nat) (m n func : Nat)
    (vals : List Nat) (fuel : Nat) (hchain : isOpChain ctx l = true) (hm : m ∈ l)
    (hins : insert_call ctx m func vals = some (ctx', n)) (hfuel : l.length + 1 ≤ fuel) :
    find_first_guest_insn ctx' fuel = find_first_guest_insn ctx fuel ∧
    (find_last_guest_insn ctx fuel ≠ .ret (some m) →
      find_last_guest_insn ctx' fuel = find_last_guest_insn ctx fuel) ∧
    (find_last_guest_insn ctx fuel = .ret (some m) →
      find_last_guest_insn ctx' fuel = .ret (some n)) := by
  obtain ⟨pre, post, hl⟩ := List.append_of_mem hm
  subst hl
  have hchain' := isOpChain_after_insert ctx ctx' m n func vals hins pre post hchain
  have hlen' : (pre ++ m :: n :: post).length ≤ fuel := by
    simp at hfuel ⊢; omega
  have hlen : (pre ++ m :: post).length ≤ fuel := by omega
  -- the chain has no repeated op
  have hnd : (pre ++ m :: post).Nodup := by
    unfold isOpChain at hchain
    cases hs : ctx.gen_op_buf[0]? with
    | none => simp [hs] at hchain
    | some s =>
      simp only [hs] at hchain
      exact chain_nodup ctx.gen_op_buf _ s.next hchain
  have hpre : m ∉ pre := fun hc =>
    (List.nodup_append.1 hnd).2.2 hc (List.mem_cons_self _ _)
  have hpost : m ∉ post := (List.nodup_cons.1 (List.nodup_append.1 hnd).2.1).1
  -- opcodes of the old ops are unchanged, the new op is a call
  have hold : ∀ j ∈ pre ++ m :: post, opcAt ctx' j = opcAt ctx j := by
    intro j hj
    unfold isOpChain at hchain
    cases hs : ctx.gen_op_buf[0]? with
    | none => simp [hs] at hchain
    | some s =>
      simp only [hs] at hchain
      obtain ⟨-, op, hop⟩ := chain_mem_lookup ctx.gen_op_buf _ s.next hchain j hj
      exact opcAt_after_insert ctx ctx' m n func vals hins j op hop
  have hnew := opcAt_new_node ctx ctx' m n func vals hins
  have hnI : isInsnStart ctx' n = false := by simp [isInsnStart, hnew]
  have hnE : isExitTb ctx' n = false := by simp [isExitTb, hnew]
  rw [find_first_guest_insn_eq_find ctx' _ fuel hchain' hlen',
    find_first_guest_insn_eq_find ctx _ fuel hchain hlen,
    find_last_guest_insn_eq_lastBeforeExit ctx' _ fuel hchain' hlen',
    find_last_guest_insn_eq_lastBeforeExit ctx _ fuel hchain hlen]
  have hcI : (pre ++ m :: post).find? (isInsnStart ctx) =
      (pre ++ m :: post).find? (isInsnStart ctx') :=
    find_congr_on _ _ _ (fun j hj => by simp [isInsnStart, hold j hj])
  have hcE : lastBeforeExit (isExitTb ctx) (pre ++ m :: post) none =
      lastBeforeExit (isExitTb ctx') (pre ++ m :: post) none :=
    lastBeforeExit_congr _ _ _ _ (fun j hj => by simp [isExitTb, hold j hj])
  rw [hcI, hcE, find_insert_non_match (isInsnStart ctx') m n hnI post pre]
  have hkey := lastBeforeExit_insert (isExitTb ctx') m n hnE post hpost pre none hpre
    (by simp)
  refine ⟨rfl, ?_, ?_⟩
  · intro hne
    rw [hkey.1 (fun hc => hne (by rw [hc]))]
  · intro heq
    rw [hkey.2 (by simpa using heq)]

/-- C5 as stated fails: in the block `insn_start; exit_tb` the marker op 1 is
what `find_last_guest_insn` returns, and after `insert_call_1p` anchored at it
`find_last_guest_insn` returns the inserted op 3 instead. -/
theorem insert_call_changes_last_query :
    ¬ (∀ (ctx ctx' : TCGContext) (l : List Nat) (m n func val fuel : Nat),
        isOpChain ctx l = true → m ∈ l → isInsnStart ctx m = true →
        insert_call_1p ctx m func val = some (ctx', n) → l.length + 1 ≤ fuel →
        find_first_guest_insn ctx' fuel = find_first_guest_insn ctx fuel ∧
          find_last_guest_insn ctx' fuel = find_last_guest_insn ctx fuel) := by
  intro h
  have h1 := h tinyBlock tinyBlockSpliced [1, 2] 1 3 77 5 5 (by decide) (by decide)
    (by decide) (by decide) (by decide)
  exact absurd h1.2 (by decide)

/-- C5 (amended): on a well-formed block with op chain `l`, inserting a
callback invocation after an op `m` of the chain (through `insert_call_1p` or
`insert_call_2p`) leaves the result of `find_first_guest_insn` unchanged; it
leaves the result of `find_last_guest_insn` unchanged provided `m` is not the
op that query returned before the insertion (the op right before the first
`exit_tb`), and when `m` is that op the query returns the inserted node. -/
theorem insert_call_preserves_first_and_last (ctx ctx' : TCGContext) (l : List Nat)
    (m n func : Nat) (fuel : Nat) (hchain : isOpChain ctx l = true) (hm : m ∈ l)
    (hins : (∃ val, insert_call_1p ctx m func val = some (ctx', n)) ∨
      (∃ val val2, insert_call_2p ctx m func val val2 = some (ctx', n)))
    (hfuel : l.length + 1 ≤ fuel) :
    find_first_guest_insn ctx' fuel = find_first_guest_insn ctx fuel ∧
    (find_last_guest_insn ctx fuel ≠ .ret (some m) →
      find_last_guest_insn ctx' fuel = find_last_guest_insn ctx fuel) ∧
    (find_last_guest_insn ctx fuel = .ret (some m) →
      find_last_guest_insn ctx' fuel = .ret (some n)) := by
  rcases hins with ⟨val, h1⟩ | ⟨val, val2, h2⟩
  · exact insert_call_queries ctx ctx' l m n func [val] fuel hchain hm h1 hfuel
  · exact insert_call_queries ctx ctx' l m n func [val, val2] fuel hchain hm h2 hfuel

/-- Witness for the amended C5: splicing after the `insn_start` op of
`tinyBlock`. -/
theorem insert_call_preserves_first_and_last_witness :
    find_first_guest_insn tinyBlockSpliced 5 = find_first_guest_insn tinyBlock 5 ∧
    (find_last_guest_insn tinyBlock 5 ≠ .ret (some 1) →
      find_last_guest_insn tinyBlockSpliced 5 = find_last_guest_insn tinyBlock 5) ∧
    (find_last_guest_insn tinyBlock 5 = .ret (some 1) →
      find_last_guest_insn tinyBlockSpliced 5 = .ret (some 3)) :=
  insert_call_preserves_first_and_last tinyBlock tinyBlockSpliced [1, 2] 1 3 77 5
    (by decide) (by decide) (Or.inl ⟨5, by decide⟩) (by decide)


theorem insert_call_splice (ctx : TCGContext) (pre post : List Nat) (a func : Nat)
    (vals : List Nat) (hchain : isOpChain ctx (pre ++ a :: post) = true) :
    ∃ ctx', insert_call ctx a func vals = some (ctx', ctx.gen_op_buf.length) ∧
      ctx'.gen_op_buf.length = ctx.gen_op_buf.length + 1 ∧
      isOpChain ctx' (pre ++ a :: ctx.gen_op_buf.length :: post) = true ∧
      isCallTo ctx' ctx.gen_op_buf.length func vals = true ∧
      (∀ i ∈ pre ++ a :: post,
        (ctx'.gen_op_buf[i]?).map (fun op => (op.opc, op.args)) =
          (ctx.gen_op_buf[i]?).map (fun op => (op.opc, op.args))) ∧
      (∀ i f vs, isCallTo ctx i f vs = true → isCallTo ctx' i f vs = true) := by
  have hlook : ∀ i ∈ pre ++ a :: post, ∃ op, ctx.gen_op_buf[i]? = some op := by
    intro i hi
    unfold isOpChain at hchain
    cases hs : ctx.gen_op_buf[0]? with
    | none => simp [hs] at hchain
    | some s =>
      simp only [hs] at hchain
      exact (chain_mem_lookup ctx.gen_op_buf _ s.next hchain i hi).2
  obtain ⟨old, hold⟩ := hlook a (by simp)
  obtain ⟨ctx', hins⟩ := insert_call_defined ctx a func vals old hold
  refine ⟨ctx', hins, (insert_call_new_node ctx ctx' a _ func vals hins).2.2.1,
    isOpChain_after_insert ctx ctx' a _ func vals hins pre post hchain,
    isCallTo_new_node ctx ctx' a _ func vals hins, ?_,
    fun i f vs => isCallTo_after_insert ctx ctx' a _ func vals hins i f vs⟩
  intro i hi
  obtain ⟨op, hop⟩ := hlook i hi
  obtain ⟨op', hop', hopc, hargs, -⟩ := insert_call_old_node ctx ctx' a _ func vals hins i op hop
  simp [hop, hop', hopc, hargs]

/-- C6: for an anchor reference pointing at op `a` of the op chain
`pre ++ a :: post`, `insert_call_1p` (and `insert_call_2p`) succeeds, puts the
new invocation node `n` right after `a` (the chain becomes
`pre ++ a :: n :: post`, every old op keeping its opcode and arguments),
and sets the anchor reference to `n`; a second insertion through the updated
anchor reference yields `pre ++ a :: n :: n' :: post`, where `n` still calls
the first callback and `n'` calls the second. -/
theorem insert_call_after_anchor_in_order (ctx : TCGContext) (pre post : List Nat)
    (a func val val2 func2 val3 : Nat)
    (hchain : isOpChain ctx (pre ++ a :: post) = true) :
    (∃ ctx1 n, insert_call_1p ctx a func val = some (ctx1, n) ∧
      isOpChain ctx1 (pre ++ a :: n :: post) = true ∧
      isCallTo ctx1 n func [val] = true ∧
      (∀ i ∈ pre ++ a :: post,
        (ctx1.gen_op_buf[i]?).map (fun op => (op.opc, op.args)) =
          (ctx.gen_op_buf[i]?).map (fun op => (op.opc, op.args))) ∧
      ∃ ctx2 n2, insert_call_1p ctx1 n func2 val3 = some (ctx2, n2) ∧
        isOpChain ctx2 (pre ++ a :: n :: n2 :: post) = true ∧
        isCallTo ctx2 n func [val] = true ∧ isCallTo ctx2 n2 func2 [val3] = true) ∧
    (∃ ctx1 n, insert_call_2p ctx a func val val2 = some (ctx1, n) ∧
      isOpChain ctx1 (pre ++ a :: n :: post) = true ∧
      isCallTo ctx1 n func [val, val2] = true ∧
      (∀ i ∈ pre ++ a :: post,
        (ctx1.gen_op_buf[i]?).map (fun op => (op.opc, op.args)) =
          (ctx.gen_op_buf[i]?).map (fun op => (op.opc, op.args)))) := by
  constructor
  · obtain ⟨ctx1, hins, -, hch, hcall, hkeep, -⟩ :=
      insert_call_splice ctx pre post a func [val] hchain
    have hch1 : isOpChain ctx1 ((pre ++ [a]) ++ ctx.gen_op_buf.length :: post) = true := by
      simpa using hch
    obtain ⟨ctx2, hins2, -, hch2, hcall2, -, hkeep2⟩ :=
      insert_call_splice ctx1 (pre ++ [a]) post ctx.gen_op_buf.length func2 [val3] hch1
    refine ⟨ctx1, _, hins, hch, hcall, hkeep, ctx2, _, hins2, ?_, ?_, hcall2⟩
    · simpa using hch2
    · exact hkeep2 _ _ _ hcall
  · obtain ⟨ctx1, hins, -, hch, hcall, hkeep, -⟩ :=
      insert_call_splice ctx pre post a func [val, val2] hchain
    exact ⟨ctx1, _, hins, hch, hcall, hkeep⟩

/-- Witness for C6: two insertions after the first `insn_start` op of the
example block. -/
theorem insert_call_after_anchor_in_order_witness :
    (∃ ctx1 n, insert_call_1p exampleBlock 1 77 5 = some (ctx1, n) ∧
      isOpChain ctx1 ([] ++ 1 :: n :: [2, 3, 4, 5]) = true ∧
      isCallTo ctx1 n 77 [5] = true ∧
      (∀ i ∈ [] ++ 1 :: [2, 3, 4, 5],
        (ctx1.gen_op_buf[i]?).map (fun op => (op.opc, op.args)) =
          (exampleBlock.gen_op_buf[i]?).map (fun op => (op.opc, op.args))) ∧
      ∃ ctx2 n2, insert_call_1p ctx1 n 78 6 = some (ctx2, n2) ∧
        isOpChain ctx2 ([] ++ 1 :: n :: n2 :: [2, 3, 4, 5]) = true ∧
        isCallTo ctx2 n 77 [5] = true ∧ isCallTo ctx2 n2 78 [6] = true) ∧
    (∃ ctx1 n, insert_call_2p exampleBlock 1 77 5 9 = some (ctx1, n) ∧
      isOpChain ctx1 ([] ++ 1 :: n :: [2, 3, 4, 5]) = true ∧
      isCallTo ctx1 n 77 [5, 9] = true ∧
      (∀ i ∈ [] ++ 1 :: [2, 3, 4, 5],
        (ctx1.gen_op_buf[i]?).map (fun op => (op.opc, op.args)) =
          (exampleBlock.gen_op_buf[i]?).map (fun op => (op.opc, op.args)))) :=
  insert_call_after_anchor_in_order exampleBlock [] [2, 3, 4, 5] 1 77 5 9 78 6 (by decide)


/-! ## `check_cpu_exit` -/

/-- C7 as stated fails: with the stop flag set and the caller on the vCPU
thread, but `first_cpu->running` false, `check_cpu_exit` returns without
invoking `cpu_loop_exit`. -/
theorem check_cpu_exit_needs_running :
    ¬ (∀ (env : CpuEnv) (param : Nat) (log : ExecLog),
        env.panda_exit_cpu = true → env.qemu_in_vcpu_thread = true →
        check_cpu_exit env param log = cpu_loop_exit env.first_cpu log) := by
  intro h
  have h1 := h envNotRunning 0 { cpu_loop_exits := [] } rfl rfl
  exact absurd h1 (by decide)

/-- C7 (amended): in every state in which the stop flag is set, the caller is
the vCPU thread and `first_cpu->running` is true, `check_cpu_exit` aborts
the rest of the block by invoking `cpu_loop_exit(first_cpu)`. -/
theorem check_cpu_exit_aborts (env : CpuEnv) (param : Nat) (log : ExecLog)
    (hstop : env.panda_exit_cpu = true) (hthread : env.qemu_in_vcpu_thread = true)
    (hrun : env.first_cpu_running = true) :
    check_cpu_exit env param log = cpu_loop_exit env.first_cpu log ∧
      (check_cpu_exit env param log).1 = Control.loop_exit ∧
      (check_cpu_exit env param log).2.cpu_loop_exits =
        log.cpu_loop_exits ++ [env.first_cpu] := by
  simp [check_cpu_exit, cpu_loop_exit, hstop, hthread, hrun]

/-- Witness for the amended C7. -/
theorem check_cpu_exit_aborts_witness :
    check_cpu_exit envStopping 0 { cpu_loop_exits := [] } =
        cpu_loop_exit envStopping.first_cpu { cpu_loop_exits := [] } ∧
      (check_cpu_exit envStopping 0 { cpu_loop_exits := [] }).1 = Control.loop_exit ∧
      (check_cpu_exit envStopping 0 { cpu_loop_exits := [] }).2.cpu_loop_exits =
        ([] : List Nat) ++ [envStopping.first_cpu] :=
  check_cpu_exit_aborts envStopping 0 { cpu_loop_exits := [] } rfl rfl rfl

/-- C8 as stated fails: with the stop flag set but `first_cpu->running`
false, two invocations of `check_cpu_exit` in sequence produce no
`cpu_loop_exit` at all. -/
theorem check_cpu_exit_twice_may_not_exit :
    ¬ (∀ (env : CpuEnv) (p1 p2 : Nat) (log : ExecLog), env.panda_exit_cpu = true →
        (andThen (check_cpu_exit env p1) (check_cpu_exit env p2) log).2.cpu_loop_exits.length
          = log.cpu_loop_exits.length + 1) := by
  intro h
  have h1 := h envNotRunning 0 0 { cpu_loop_exits := [] } rfl
  exact absurd h1 (by decide)

/-- C8 (amended): with the stop flag set, the caller on the vCPU thread and
`first_cpu->running` true, two invocations of `check_cpu_exit` in sequence
produce exactly one `cpu_loop_exit`: the first invocation aborts, and
whatever code follows it (the second invocation in particular) is not
run and has no effect. -/
theorem check_cpu_exit_twice_exits_once (env : CpuEnv) (p1 p2 : Nat) (log : ExecLog)
    (hstop : env.panda_exit_cpu = true) (hthread : env.qemu_in_vcpu_thread = true)
    (hrun : env.first_cpu_running = true) :
    andThen (check_cpu_exit env p1) (check_cpu_exit env p2) log =
        (Control.loop_exit, { cpu_loop_exits := log.cpu_loop_exits ++ [env.first_cpu] }) ∧
      (andThen (check_cpu_exit env p1) (check_cpu_exit env p2) log).2.cpu_loop_exits.length
        = log.cpu_loop_exits.length + 1 ∧
      ∀ second : ExecLog → Control × ExecLog,
        andThen (check_cpu_exit env p1) second log = check_cpu_exit env p1 log := by
  simp [andThen, check_cpu_exit, cpu_loop_exit, hstop, hthread, hrun]

/-- Witness for the amended C8. -/
theorem check_cpu_exit_twice_exits_once_witness :
    andThen (check_cpu_exit envStopping 1) (check_cpu_exit envStopping 2)
        { cpu_loop_exits := [] } =
        (Control.loop_exit,
          { cpu_loop_exits := ([] : List Nat) ++ [envStopping.first_cpu] }) ∧
      (andThen (check_cpu_exit envStopping 1) (check_cpu_exit envStopping 2)
        { cpu_loop_exits := [] }).2.cpu_loop_exits.length = ([] : List Nat).length + 1 ∧
      ∀ second : ExecLog → Control × ExecLog,
        andThen (check_cpu_exit envStopping 1) second { cpu_loop_exits := [] } =
          check_cpu_exit envStopping 1 { cpu_loop_exits := [] } :=
  check_cpu_exit_twice_exits_once envStopping 1 2 { cpu_loop_exits := [] } rfl rfl rfl


/-! ## `running_syscalls` -/

theorem key_lt_iff (a b : ctx_key_t) :
    key_lt a b = true ↔ a.1 < b.1 ∨ (a.1 = b.1 ∧ a.2 < b.2) := by
  simp [key_lt]

theorem key_lt_trans (a b c : ctx_key_t) (hab : key_lt a b = true) (hbc : key_lt b c = true) :
    key_lt a c = true := by
  rw [key_lt_iff] at *
  omega

theorem key_lt_irrefl (a : ctx_key_t) : key_lt a a = false := by
  cases h : key_lt a a with
  | false => rfl
  | true => rw [key_lt_iff] at h; omega

theorem key_eq_of_not_lt (a b : ctx_key_t) (hab : ¬ key_lt a b = true)
    (hba : ¬ key_lt b a = true) : a = b := by
  rw [key_lt_iff] at hab hba
  apply Prod.ext <;> omega

theorem mem_map_assign (k : ctx_key_t) (v : syscall_ctx_t) :
    ∀ (m : context_map_t) (e : ctx_key_t × syscall_ctx_t),
      e ∈ map_assign m k v → e = (k, v) ∨ e ∈ m := by
  intro m
  induction m with
  | nil => intro e he; simpa [map_assign] using he
  | cons hd rest ih =>
    obtain ⟨k', v'⟩ := hd
    intro e he
    simp only [map_assign] at he
    split at he
    · rcases List.mem_cons.1 he with h | h
      · exact Or.inl h
      · exact Or.inr h
    · split at he
      · rcases List.mem_cons.1 he with h | h
        · exact Or.inr (by simp [h])
        · rcases ih e h with h2 | h2
          · exact Or.inl h2
          · exact Or.inr (List.mem_cons_of_mem _ h2)
      · rcases List.mem_cons.1 he with h | h
        · exact Or.inl h
        · exact Or.inr (List.mem_cons_of_mem _ h)

theorem mem_map_insert (k : ctx_key_t) (v : syscall_ctx_t) :
    ∀ (m : context_map_t) (e : ctx_key_t × syscall_ctx_t),
      e ∈ map_insert m k v → e = (k, v) ∨ e ∈ m := by
  intro m
  induction m with
  | nil => intro e he; simpa [map_insert] using he
  | cons hd rest ih =>
    obtain ⟨k', v'⟩ := hd
    intro e he
    simp only [map_insert] at he
    split at he
    · rcases List.mem_cons.1 he with h | h
      · exact Or.inl h
      · exact Or.inr h
    · split at he
      · rcases List.mem_cons.1 he with h | h
        · exact Or.inr (by simp [h])
        · rcases ih e h with h2 | h2
          · exact Or.inl h2
          · exact Or.inr (List.mem_cons_of_mem _ h2)
      · exact Or.inr he

theorem mem_map_erase (k : ctx_key_t) :
    ∀ (m : context_map_t) (e : ctx_key_t × syscall_ctx_t), e ∈ map_erase m k → e ∈ m := by
  intro m
  induction m with
  | nil => intro e he; simp [map_erase] at he
  | cons hd rest ih =>
    obtain ⟨k', v'⟩ := hd
    intro e he
    simp only [map_erase] at he
    split at he
    · exact he
    · split at he
      · rcases List.mem_cons.1 he with h | h
        · simp [h]
        · exact List.mem_cons_of_mem _ (ih e h)
      · exact List.mem_cons_of_mem _ he

theorem sorted_map_assign (k : ctx_key_t) (v : syscall_ctx_t) :
    ∀ (m : context_map_t), m.Pairwise (fun a b => key_lt a.1 b.1 = true) →
      (map_assign m k v).Pairwise (fun a b => key_lt a.1 b.1 = true) := by
  intro m
  induction m with
  | nil => intro _; simp [map_assign]
  | cons hd rest ih =>
    obtain ⟨k', v'⟩ := hd
    intro hs
    rw [List.pairwise_cons] at hs
    obtain ⟨hhd, hrest⟩ := hs
    simp only [map_assign]
    split
    · rename_i hlt
      refine List.pairwise_cons.2 ⟨?_, List.pairwise_cons.2 ⟨hhd, hrest⟩⟩
      intro e he
      rcases List.mem_cons.1 he with h | h
      · rw [h]; exact hlt
      · exact key_lt_trans _ _ _ hlt (hhd e h)
    · split
      · rename_i hgt
        refine List.pairwise_cons.2 ⟨?_, ih hrest⟩
        intro e he
        rcases mem_map_assign k v rest e he with h | h
        · rw [h]; exact hgt
        · exact hhd e h
      · rename_i hnlt hngt
        have hk : k = k' := key_eq_of_not_lt k k' hnlt hngt
        refine List.pairwise_cons.2 ⟨?_, hrest⟩
        intro e he
        rw [hk]
        exact hhd e he

theorem sorted_map_insert (k : ctx_key_t) (v : syscall_ctx_t) :
    ∀ (m : context_map_t), m.Pairwise (fun a b => key_lt a.1 b.1 = true) →
      (map_insert m k v).Pairwise (fun a b => key_lt a.1 b.1 = true) := by
  intro m
  induction m with
  | nil => intro _; simp [map_insert]
  | cons hd rest ih =>
    obtain ⟨k', v'⟩ := hd
    intro hs
    have hs0 := hs
    rw [List.pairwise_cons] at hs
    obtain ⟨hhd, hrest⟩ := hs
    simp only [map_insert]
    split
    · rename_i hlt
      refine List.pairwise_cons.2 ⟨?_, hs0⟩
      intro e he
      rcases List.mem_cons.1 he with h | h
      · rw [h]; exact hlt
      · exact key_lt_trans _ _ _ hlt (hhd e h)
    · split
      · rename_i hgt
        refine List.pairwise_cons.2 ⟨?_, ih hrest⟩
        intro e he
        rcases mem_map_insert k v rest e he with h | h
        · rw [h]; exact hgt
        · exact hhd e h
      · exact hs0

theorem sorted_map_erase (k : ctx_key_t) :
    ∀ (m : context_map_t), m.Pairwise (fun a b => key_lt a.1 b.1 = true) →
      (map_erase m k).Pairwise (fun a b => key_lt a.1 b.1 = true) := by
  intro m
  induction m with
  | nil => intro _; simp [map_erase]
  | cons hd rest ih =>
    obtain ⟨k', v'⟩ := hd
    intro hs
    have hs0 := hs
    rw [List.pairwise_cons] at hs
    obtain ⟨hhd, hrest⟩ := hs
    simp only [map_erase]
    split
    · exact hs0
    · split
      · refine List.pairwise_cons.2 ⟨?_, ih hrest⟩
        intro e he
        exact hhd e (mem_map_erase k rest e he)
      · exact hrest

theorem sorted_map_run_from (ops : List MapOp) :
    ∀ (m : context_map_t), m.Pairwise (fun a b => key_lt a.1 b.1 = true) →
      (ops.foldl map_step m).Pairwise (fun a b => key_lt a.1 b.1 = true) := by
  induction ops with
  | nil => intro m hm; exact hm
  | cons op ops ih =>
    intro m hm
    rw [List.foldl_cons]
    apply ih
    cases op with
    | assign k v => exact sorted_map_assign k v m hm
    | insert k v => exact sorted_map_insert k v m hm
    | erase k => exact sorted_map_erase k m hm

theorem contexts_for_sorted (k : ctx_key_t) :
    ∀ (m : context_map_t), m.Pairwise (fun a b => key_lt a.1 b.1 = true) →
      (contexts_for m k).length ≤ 1 := by
  intro m
  induction m with
  | nil => intro _; simp [contexts_for]
  | cons hd rest ih =>
    obtain ⟨k', v'⟩ := hd
    intro hs
    rw [List.pairwise_cons] at hs
    obtain ⟨hhd, hrest⟩ := hs
    by_cases hk : k' = k
    · subst hk
      have hnone : rest.filter (fun e => e.1 == k') = [] := by
        rw [List.filter_eq_nil_iff]
        intro e he hc
        have h1 := hhd e he
        have h2 : e.1 = k' := by simpa using hc
        rw [h2, key_lt_irrefl] at h1
        exact Bool.noConfusion h1
      simp [contexts_for, hnone]
    · have := ih hrest
      simpa [contexts_for, hk] using this

/-- C9: after any sequence of insertions, assignments and removals on the
initially empty `running_syscalls`, every key has at most one context: the
map holds at most one entry under each key, so two entries with the same key
are the same context. -/
theorem running_syscalls_one_context_per_key (ops : List MapOp) (k : ctx_key_t) :
    (contexts_for (map_run ops) k).length ≤ 1 ∧
      ∀ v1 v2, v1 ∈ contexts_for (map_run ops) k → v2 ∈ contexts_for (map_run ops) k →
        v1 = v2 := by
  have hlen : (contexts_for (map_run ops) k).length ≤ 1 :=
    contexts_for_sorted k _ (sorted_map_run_from ops [] List.Pairwise.nil)
  refine ⟨hlen, ?_⟩
  intro v1 v2 h1 h2
  match hc : contexts_for (map_run ops) k with
  | [] => rw [hc] at h1; simp at h1
  | [x] =>
    rw [hc] at h1 h2
    simp at h1 h2
    rw [h1, h2]
  | x :: y :: r => rw [hc] at hlen; simp at hlen


/-! ## The hook registry -/

theorem registry_run_snoc (r : Registry) (calls : List RegistryCall) (c : RegistryCall) :
    registry_run r (calls ++ [c]) = registry_step (registry_run r calls) c := by
  simp [registry_run, List.foldl_append]

theorem snoc_eq_append_cons {α : Type} (cs before later : List α) (c x : α)
    (h : cs ++ [c] = before ++ x :: later) :
    (later = [] ∧ cs = before ∧ c = x) ∨
      ∃ later2, later = later2 ++ [c] ∧ cs = before ++ x :: later2 := by
  rcases List.eq_nil_or_concat later with hl | ⟨later2, c2, hl⟩
  · subst hl
    have h2 : cs ++ [c] = before ++ [x] := h
    have := List.append_inj' h2 rfl
    exact Or.inl ⟨rfl, this.1, by simpa using this.2⟩
  · subst hl
    have h2 : cs ++ [c] = (before ++ x :: later2) ++ [c2] := by
      simpa using h
    have := List.append_inj' h2 rfl
    have hc : c = c2 := by simpa using this.2
    subst hc
    exact Or.inr ⟨later2, by simp, this.1⟩

theorem add_hook_hooks (r : Registry) (h : Hook) :
    (registry_step r (RegistryCall.add_hook h)).hooks =
      if h.plugin_num ∈ r.plugins then r.hooks ++ [h] else r.hooks := by
  cases h
  simp only [registry_step, add_hook]
  split <;> rfl

theorem mem_hooks_iff_added_live (r0 : Registry) (hr0 : r0.hooks = []) (h : Hook) :
    ∀ calls : List RegistryCall,
      h ∈ (registry_run r0 calls).hooks ↔
        ∃ before later, calls = before ++ RegistryCall.add_hook h :: later ∧
          h.plugin_num ∈ (registry_run r0 before).plugins ∧
          RegistryCall.unregister_plugin h.plugin_num ∉ later := by
  intro calls
  induction calls using List.reverseRecOn with
  | nil =>
    simp only [registry_run, List.foldl_nil, hr0, List.not_mem_nil, false_iff]
    rintro ⟨before, later, heq, -, -⟩
    simp at heq
  | append_singleton cs c ih =>
    rw [registry_run_snoc]
    cases c with
    | add_hook h0 =>
      rw [add_hook_hooks]
      constructor
      · intro hmem
        have hcases : h ∈ (registry_run r0 cs).hooks ∨
            (h = h0 ∧ h0.plugin_num ∈ (registry_run r0 cs).plugins) := by
          split at hmem
          · rename_i hlive
            rcases List.mem_append.1 hmem with hm | hm
            · exact Or.inl hm
            · exact Or.inr ⟨by simpa using hm, hlive⟩
          · exact Or.inl hmem
        rcases hcases with hm | ⟨rfl, hlive⟩
        · obtain ⟨before, later, heq, hlive, hno⟩ := ih.1 hm
          refine ⟨before, later ++ [RegistryCall.add_hook h0], by simp [heq], hlive, ?_⟩
          simpa using hno
        · exact ⟨cs, [], rfl, hlive, by simp⟩
      · rintro ⟨before, later, heq, hlive, hno⟩
        rcases snoc_eq_append_cons cs before later _ _ heq with ⟨-, hcs, hc⟩ |
          ⟨later2, hl, hcs⟩
        · have hh : h0 = h := by simpa using hc
          subst hh
          subst hcs
          rw [if_pos hlive]
          simp
        · have hreg : ∃ before later, cs = before ++ RegistryCall.add_hook h :: later ∧
              h.plugin_num ∈ (registry_run r0 before).plugins ∧
              RegistryCall.unregister_plugin h.plugin_num ∉ later := by
            refine ⟨before, later2, hcs, hlive, ?_⟩
            intro hc
            exact hno (by rw [hl]; exact List.mem_append_left _ hc)
          have hm := ih.2 hreg
          split
          · exact List.mem_append_left _ hm
          · exact hm
    | unregister_plugin p =>
      simp only [registry_step, unregister_plugin, List.mem_filter, bne_iff_ne, ne_eq]
      constructor
      · rintro ⟨hm, hp⟩
        obtain ⟨before, later, heq, hlive, hno⟩ := ih.1 hm
        refine ⟨before, later ++ [RegistryCall.unregister_plugin p], by simp [heq], hlive, ?_⟩
        intro hc
        rcases List.mem_append.1 hc with hc | hc
        · exact hno hc
        · have : h.plugin_num = p := by simpa using hc
          exact hp this
      · rintro ⟨before, later, heq, hlive, hno⟩
        rcases snoc_eq_append_cons cs before later _ _ heq with ⟨-, -, hc⟩ |
          ⟨later2, hl, hcs⟩
        · exact RegistryCall.noConfusion hc
        · have hreg : ∃ before later, cs = before ++ RegistryCall.add_hook h :: later ∧
              h.plugin_num ∈ (registry_run r0 before).plugins ∧
              RegistryCall.unregister_plugin h.plugin_num ∉ later := by
            refine ⟨before, later2, hcs, hlive, ?_⟩
            intro hc
            exact hno (by rw [hl]; exact List.mem_append_left _ hc)
          refine ⟨ih.2 hreg, ?_⟩
          intro hp
          apply hno
          rw [hl, hp]
          simp

theorem plugins_of_run_subset (calls : List RegistryCall) :
    ∀ (r : Registry) (p : PluginReg), p ∈ (registry_run r calls).plugins → p ∈ r.plugins := by
  induction calls with
  | nil => intro r p hp; exact hp
  | cons c cs ih =>
    intro r p hp
    have h1 : p ∈ (registry_step r c).plugins := ih (registry_step r c) p hp
    cases c with
    | add_hook h0 =>
      simp only [registry_step, add_hook] at h1
      split at h1 <;> exact h1
    | unregister_plugin q =>
      simp only [registry_step, unregister_plugin, List.mem_filter] at h1
      exact h1.1

theorem not_plugin_after_unregister (p : PluginReg) (calls : List RegistryCall) :
    ∀ (r : Registry), RegistryCall.unregister_plugin p ∈ calls →
      p ∉ (registry_run r calls).plugins := by
  induction calls with
  | nil => intro r h; simp at h
  | cons c cs ih =>
    intro r h
    rcases List.mem_cons.1 h with h | h
    · subst h
      intro hc
      have := plugins_of_run_subset cs _ p hc
      simp [registry_step, unregister_plugin] at this
    · exact ih (registry_step r c) h

theorem plugins_of_run_iff (p : PluginReg) (calls : List RegistryCall) :
    ∀ r : Registry, p ∈ (registry_run r calls).plugins ↔
      p ∈ r.plugins ∧ RegistryCall.unregister_plugin p ∉ calls := by
  induction calls with
  | nil => intro r; simp [registry_run]
  | cons c cs ih =>
    intro r
    have hrun : registry_run r (c :: cs) = registry_run (registry_step r c) cs := rfl
    rw [hrun, ih (registry_step r c)]
    cases c with
    | add_hook h0 =>
      have hp : (registry_step r (RegistryCall.add_hook h0)).plugins = r.plugins := by
        simp only [registry_step, add_hook]
        split <;> rfl
      rw [hp]
      simp
    | unregister_plugin q =>
      simp only [registry_step, unregister_plugin, List.mem_filter, bne_iff_ne, ne_eq,
        List.mem_cons, RegistryCall.unregister_plugin.injEq, not_or]
      tauto

theorem mem_hooks_iff_registered (r0 : Registry) (hr0 : r0.hooks = []) (h : Hook)
    (calls : List RegistryCall) :
    h ∈ (registry_run r0 calls).hooks ↔ registered_after r0 calls h := by
  rw [mem_hooks_iff_added_live r0 hr0 h calls]
  unfold registered_after
  constructor
  · rintro ⟨before, later, heq, hlive, hno⟩
    rw [plugins_of_run_iff] at hlive
    exact ⟨hlive.1, before, later, heq, hlive.2, hno⟩
  · rintro ⟨hp, before, later, heq, hnb, hno⟩
    exact ⟨before, later, heq, (plugins_of_run_iff _ before r0).2 ⟨hp, hnb⟩, hno⟩

/-- C10: for every sequence of `add_hook` / `unregister_plugin` calls made on
a registry that holds no hook yet, the block-compilation query over the
address range `[lo, hi)` and address space `asid` returns exactly the
registered hooks (those of a plugin registered at the beginning, added by
some call, with no `unregister_plugin` of their plugin anywhere in the
sequence) whose `pc` is in the range and whose `asid` is 0 or `asid`; a
returned hook never belongs to a plugin for which `unregister_plugin` has
been called. -/
theorem hooks_for_block_exact (r0 : Registry) (calls : List RegistryCall)
    (lo hi asid : Nat) (h : Hook) (hr0 : r0.hooks = []) :
    (h ∈ hooks_for_block (registry_run r0 calls) lo hi asid ↔
      registered_after r0 calls h ∧ lo ≤ h.pc ∧ h.pc < hi ∧ (h.asid = 0 ∨ h.asid = asid)) ∧
    (h ∈ hooks_for_block (registry_run r0 calls) lo hi asid →
      RegistryCall.unregister_plugin h.plugin_num ∉ calls) := by
  have hiff : h ∈ hooks_for_block (registry_run r0 calls) lo hi asid ↔
      registered_after r0 calls h ∧ lo ≤ h.pc ∧ h.pc < hi ∧ (h.asid = 0 ∨ h.asid = asid) := by
    simp only [hooks_for_block, List.mem_filter, mem_hooks_iff_registered r0 hr0 h calls,
      hook_matches, Bool.and_eq_true, Bool.or_eq_true, decide_eq_true_eq, beq_iff_eq]
    tauto
  refine ⟨hiff, ?_⟩
  intro hmem hun
  obtain ⟨⟨-, before, later, heq, hnb, hno⟩, -⟩ := hiff.1 hmem
  rw [heq] at hun
  rcases List.mem_append.1 hun with hb | hb
  · exact hnb hb
  · rcases List.mem_cons.1 hb with hb | hb
    · exact RegistryCall.noConfusion hb
    · exact hno hb

/-- Witness for C10: plugins 1 and 2 are registered; plugin 1 is unregistered,
then plugin 2 adds a hook at `0x1008` in address space 7 and plugin 1 tries
to add the hook at `0x1000`. -/
theorem hooks_for_block_exact_witness :
    (hookAt1008 ∈ hooks_for_block
        (registry_run registryTwoPlugins
          [RegistryCall.unregister_plugin 1, RegistryCall.add_hook hookAt1008,
            RegistryCall.add_hook hookAt1000]) 0x0FF0 0x1010 7 ↔
      registered_after registryTwoPlugins
          [RegistryCall.unregister_plugin 1, RegistryCall.add_hook hookAt1008,
            RegistryCall.add_hook hookAt1000] hookAt1008 ∧
        0x0FF0 ≤ hookAt1008.pc ∧ hookAt1008.pc < 0x1010 ∧
        (hookAt1008.asid = 0 ∨ hookAt1008.asid = 7)) ∧
    (hookAt1008 ∈ hooks_for_block
        (registry_run registryTwoPlugins
          [RegistryCall.unregister_plugin 1, RegistryCall.add_hook hookAt1008,
            RegistryCall.add_hook hookAt1000]) 0x0FF0 0x1010 7 →
      RegistryCall.unregister_plugin hookAt1008.plugin_num ∉
        [RegistryCall.unregister_plugin 1, RegistryCall.add_hook hookAt1008,
          RegistryCall.add_hook hookAt1000]) :=
  hooks_for_block_exact registryTwoPlugins
    [RegistryCall.unregister_plugin 1, RegistryCall.add_hook hookAt1008,
      RegistryCall.add_hook hookAt1000] 0x0FF0 0x1010 7 hookAt1008 rfl

/-! ## The syscall tracker -/

theorem key_ne_of_lt (a b : ctx_key_t) (h : key_lt a b = true) : a ≠ b := by
  intro hab
  rw [hab, key_lt_irrefl] at h
  exact Bool.noConfusion h

theorem map_find_cons (e : ctx_key_t × syscall_ctx_t) (m : context_map_t) (k : ctx_key_t) :
    map_find (e :: m) k = if e.1 = k then some e.2 else map_find m k := by
  unfold map_find
  rw [List.find?_cons]
  by_cases h : e.1 = k
  · simp [h]
  · have hb : (e.1 == k) = false := by simpa using h
    simp [hb, h]

theorem map_find_assign_self (k : ctx_key_t) (v : syscall_ctx_t) :
    ∀ m : context_map_t, map_find (map_assign m k v) k = some v := by
  intro m
  induction m with
  | nil => simp [map_assign, map_find_cons]
  | cons hd rest ih =>
    obtain ⟨k', v'⟩ := hd
    simp only [map_assign]
    split
    · simp [map_find_cons]
    · split
      · rename_i hgt
        rw [map_find_cons, if_neg (key_ne_of_lt k' k hgt)]
        exact ih
      · simp [map_find_cons]

theorem map_find_assign_other (k K : ctx_key_t) (v : syscall_ctx_t) (hk : k ≠ K) :
    ∀ m : context_map_t, map_find (map_assign m k v) K = map_find m K := by
  intro m
  induction m with
  | nil => simp [map_assign, map_find_cons, hk]
  | cons hd rest ih =>
    obtain ⟨k', v'⟩ := hd
    simp only [map_assign]
    split
    · rw [map_find_cons, if_neg hk]
    · split
      · rw [map_find_cons, map_find_cons, ih]
      · rename_i hnlt hngt
        have hkk : k = k' := key_eq_of_not_lt k k' hnlt hngt
        rw [map_find_cons, map_find_cons, if_neg hk, if_neg (by rw [← hkk]; exact hk)]

theorem map_find_erase_other (k K : ctx_key_t) (hk : k ≠ K) :
    ∀ m : context_map_t, map_find (map_erase m k) K = map_find m K := by
  intro m
  induction m with
  | nil => simp [map_erase]
  | cons hd rest ih =>
    obtain ⟨k', v'⟩ := hd
    simp only [map_erase]
    split
    · rfl
    · split
      · rw [map_find_cons, map_find_cons, ih]
      · rename_i hnlt hngt
        have hkk : k = k' := key_eq_of_not_lt k k' hnlt hngt
        rw [map_find_cons, if_neg (by rw [← hkk]; exact hk)]

theorem map_find_none_of_all_gt (K : ctx_key_t) (m : context_map_t)
    (h : ∀ e ∈ m, key_lt K e.1 = true) : map_find m K = none := by
  unfold map_find
  rw [Option.map_eq_none', List.find?_eq_none]
  intro e he hc
  have h1 : e.1 = K := by simpa using hc
  exact key_ne_of_lt K e.1 (h e he) h1.symm

theorem map_find_erase_self (K : ctx_key_t) :
    ∀ m : context_map_t, m.Pairwise (fun a b => key_lt a.1 b.1 = true) →
      map_find (map_erase m K) K = none := by
  intro m
  induction m with
  | nil => intro _; simp [map_erase, map_find]
  | cons hd rest ih =>
    obtain ⟨k', v'⟩ := hd
    intro hs
    rw [List.pairwise_cons] at hs
    obtain ⟨hhd, hrest⟩ := hs
    simp only [map_erase]
    split
    · rename_i hlt
      apply map_find_none_of_all_gt
      intro e he
      rcases List.mem_cons.1 he with h | h
      · rw [h]; exact hlt
      · exact key_lt_trans _ _ _ hlt (hhd e h)
    · split
      · rename_i hgt
        rw [map_find_cons, if_neg (key_ne_of_lt k' K hgt)]
        exact ih hrest
      · rename_i hnlt hngt
        have hkk : K = k' := key_eq_of_not_lt K k' hnlt hngt
        apply map_find_none_of_all_gt
        intro e he
        rw [hkk]
        exact hhd e he

theorem contexts_for_eq_nil_of_find (m : context_map_t) (K : ctx_key_t)
    (h : map_find m K = none) : contexts_for m K = [] := by
  unfold map_find at h
  rw [Option.map_eq_none', List.find?_eq_none] at h
  unfold contexts_for
  rw [List.map_eq_nil_iff, List.filter_eq_nil_iff]
  exact h

theorem sorted_tracker_step (s : SyscallTracker) (e : TrackerEvent)
    (hs : s.running_syscalls.Pairwise (fun a b => key_lt a.1 b.1 = true)) :
    (tracker_step s e).running_syscalls.Pairwise (fun a b => key_lt a.1 b.1 = true) := by
  cases e with
  | entry k ctx => exact sorted_map_assign k ctx _ hs
  | ret k =>
    simp only [tracker_step, hook_syscall_return]
    split
    · exact hs
    · exact sorted_map_erase k _ hs

theorem sorted_tracker_run (events : List TrackerEvent) :
    ∀ s : SyscallTracker, s.running_syscalls.Pairwise (fun a b => key_lt a.1 b.1 = true) →
      (tracker_run s events).running_syscalls.Pairwise
        (fun a b => key_lt a.1 b.1 = true) := by
  induction events with
  | nil => intro s hs; exact hs
  | cons e es ih =>
    intro s hs
    exact ih (tracker_step s e) (sorted_tracker_step s e hs)

theorem tracker_run_other_keys (K : ctx_key_t) (events : List TrackerEvent) :
    ∀ s : SyscallTracker, (∀ e ∈ events, e.key ≠ K) →
      map_find (tracker_run s events).running_syscalls K = map_find s.running_syscalls K ∧
      ∃ extra, (tracker_run s events).return_switch_calls = s.return_switch_calls ++ extra ∧
        ∀ c ∈ extra, c.1 ≠ K := by
  induction events with
  | nil => intro s _; exact ⟨rfl, [], by simp [tracker_run], by simp⟩
  | cons e es ih =>
    intro s h
    have hk : e.key ≠ K := h e (List.mem_cons_self _ _)
    obtain ⟨hfind, extra, hlog, hextra⟩ :=
      ih (tracker_step s e) (fun x hx => h x (List.mem_cons_of_mem _ hx))
    have hrun : tracker_run s (e :: es) = tracker_run (tracker_step s e) es := rfl
    rw [hrun, hfind]
    cases e with
    | entry k ctx =>
      have hk2 : k ≠ K := hk
      refine ⟨map_find_assign_other k K ctx hk2 _, extra, ?_, hextra⟩
      rw [hlog]; rfl
    | ret k =>
      have hk2 : k ≠ K := hk
      simp only [tracker_step, hook_syscall_return] at hlog ⊢
      split at hlog
      · rename_i hnone
        simp only [hnone]
        exact ⟨trivial, extra, hlog, hextra⟩
      · rename_i c hsome
        simp only [hsome]
        refine ⟨map_find_erase_other k K hk2 _, (k, c) :: extra, ?_, ?_⟩
        · rw [hlog]; simp
        · intro x hx
          rcases List.mem_cons.1 hx with hx | hx
          · rw [hx]; exact hk2
          · exact hextra x hx


theorem tracker_run_append (s : SyscallTracker) (xs ys : List TrackerEvent) :
    tracker_run s (xs ++ ys) = tracker_run (tracker_run s xs) ys := by
  simp [tracker_run, List.foldl_append]

/-- C11: for every key `K`, after any earlier events `before`, a syscall entry
event for `K` with context `ctx`, then events about other keys, then the
return event for `K` (`hook_syscall_return`): among the return-switch
invocations made from the entry event on (the entry event's own
included), exactly one is for `K`, it is made by the return event and
carries the context captured at entry; `K` is absent from
`running_syscalls` right afterwards. -/
theorem syscall_round_trip (before mid : List TrackerEvent) (K : ctx_key_t)
    (ctx : syscall_ctx_t) (hmid : ∀ e ∈ mid, e.key ≠ K) :
    let sb := tracker_run SyscallTracker.start before
    let s1 := tracker_run sb (TrackerEvent.entry K ctx :: mid)
    let s2 := hook_syscall_return s1 K
    tracker_run SyscallTracker.start
        (before ++ TrackerEvent.entry K ctx :: mid ++ [TrackerEvent.ret K]) = s2 ∧
      s2.return_switch_calls = s1.return_switch_calls ++ [(K, ctx)] ∧
      (s1.return_switch_calls.drop sb.return_switch_calls.length).filter
          (fun c => c.1 == K) = [] ∧
      (s2.return_switch_calls.drop sb.return_switch_calls.length).filter
          (fun c => c.1 == K) = [(K, ctx)] ∧
      map_find s2.running_syscalls K = none ∧
      contexts_for s2.running_syscalls K = [] := by
  intro sb s1 s2
  have hs1 : s1 = tracker_run (syscall_enter_switch sb K ctx) mid := rfl
  have hfind0 : map_find (syscall_enter_switch sb K ctx).running_syscalls K = some ctx :=
    map_find_assign_self K ctx _
  have hlog0 : (syscall_enter_switch sb K ctx).return_switch_calls =
      sb.return_switch_calls := rfl
  obtain ⟨hfind1, extra, hlog1, hextra⟩ :=
    tracker_run_other_keys K mid (syscall_enter_switch sb K ctx) hmid
  rw [← hs1] at hfind1 hlog1
  rw [hlog0] at hlog1
  have hfind1' : map_find s1.running_syscalls K = some ctx := hfind1.trans hfind0
  have hsorted1 : s1.running_syscalls.Pairwise (fun a b => key_lt a.1 b.1 = true) :=
    sorted_tracker_run _ _ (sorted_tracker_run _ _ List.Pairwise.nil)
  have hs2 : s2 = { running_syscalls := map_erase s1.running_syscalls K,
                    return_switch_calls := s1.return_switch_calls ++ [(K, ctx)] } := by
    show hook_syscall_return s1 K = _
    simp only [hook_syscall_return, hfind1']
  have hnone : map_find s2.running_syscalls K = none := by
    rw [hs2]
    exact map_find_erase_self K _ hsorted1
  have hex : extra.filter (fun c => c.1 == K) = [] := by
    rw [List.filter_eq_nil_iff]
    intro c hc hck
    exact hextra c hc (by simpa using hck)
  refine ⟨?_, by rw [hs2], ?_, ?_, hnone, contexts_for_eq_nil_of_find _ _ hnone⟩
  · rw [tracker_run_append, tracker_run_append]
    rfl
  · rw [hlog1, List.drop_left]
    exact hex
  · rw [hs2]
    simp only [hlog1, List.append_assoc, List.drop_left, List.filter_append]
    simp [hex]

/-- Witness for C11, the spec's scenario: entry with key (7, 3), an
unrelated entry and an unmatched return in between, then the return for
(7, 3). -/
theorem syscall_round_trip_witness :
    let sb := tracker_run SyscallTracker.start []
    let s1 := tracker_run sb
      (TrackerEvent.entry (7, 3) exampleCtx ::
        [TrackerEvent.entry (1, 1) { no := 5, args := [], retaddr := 9 },
          TrackerEvent.ret (9, 9)])
    let s2 := hook_syscall_return s1 (7, 3)
    tracker_run SyscallTracker.start
        ([] ++ TrackerEvent.entry (7, 3) exampleCtx ::
          [TrackerEvent.entry (1, 1) { no := 5, args := [], retaddr := 9 },
            TrackerEvent.ret (9, 9)] ++ [TrackerEvent.ret (7, 3)]) = s2 ∧
      s2.return_switch_calls = s1.return_switch_calls ++ [((7, 3), exampleCtx)] ∧
      (s1.return_switch_calls.drop sb.return_switch_calls.length).filter
          (fun c => c.1 == ((7, 3) : ctx_key_t)) = [] ∧
      (s2.return_switch_calls.drop sb.return_switch_calls.length).filter
          (fun c => c.1 == ((7, 3) : ctx_key_t)) = [((7, 3), exampleCtx)] ∧
      map_find s2.running_syscalls (7, 3) = none ∧
      contexts_for s2.running_syscalls (7, 3) = [] :=
  syscall_round_trip []
    [TrackerEvent.entry (1, 1) { no := 5, args := [], retaddr := 9 }, TrackerEvent.ret (9, 9)]
    (7, 3) exampleCtx (by decide)

/-! ## The wide-address branch of `find_guest_insn_by_addr` -/

theorem insn_start_addr_wide_low_word (params : List Nat) (args a0 a1 : Nat)
    (h0 : params[args]? = some a0) (h1 : params[args + 1]? = some a1)
    (hlt : a0 < 2 ^ 32) :
    insn_start_addr cfgWide params args = some a0 := by
  unfold insn_start_addr
  have hcfg : cfgWide.TARGET_LONG_BITS > cfgWide.TCG_TARGET_REG_BITS := by decide
  rw [if_pos hcfg]
  simp only [h0, h1]
  have hz : a1 * 2 ^ 32 % 2 ^ cfgWide.TCG_TARGET_REG_BITS = 0 := by
    show a1 * 2 ^ 32 % 2 ^ 32 = 0
    exact Nat.mul_mod_left a1 (2 ^ 32)
  rw [hz]
  have hlt2 : a0 < 2 ^ cfgWide.TARGET_LONG_BITS := by
    show a0 < 2 ^ 64
    omega
  simp [Nat.mod_eq_of_lt hlt2]

/-- C12 fails on the code: in the 64-on-32 configuration the marker of
`wideBlock` holds the words of the guest address `0x100001000`
(`args[1] * 2^32 + args[0]`), but the address the code compares with
the query is `0x1000`, the low word alone, so the query for `0x100001000`
returns `NULL` (and the query for `0x1000` returns the marker). -/
theorem find_guest_insn_by_addr_wide_loses_high_word :
    isOpChain wideBlock [1, 2] = true ∧ isInsnStart wideBlock 1 = true ∧
    wideBlock.gen_opparam_buf[0]? = some 0x1000 ∧ wideBlock.gen_opparam_buf[1]? = some 1 ∧
    1 * 2 ^ 32 + 0x1000 = 0x100001000 ∧
    insn_start_addr cfgWide wideBlock.gen_opparam_buf 0 = some 0x1000 ∧
    find_guest_insn_by_addr cfgWide wideBlock 0x100001000 2 = .ret none ∧
    find_guest_insn_by_addr cfgWide wideBlock 0x1000 2 = .ret (some 1) := by
  refine ⟨by decide, by decide, by decide, by decide, by decide, ?_, ?_, ?_⟩
  · exact insn_start_addr_wide_low_word _ 0 0x1000 1 (by decide) (by decide) (by decide)
  · have h := insn_start_addr_wide_low_word wideBlock.gen_opparam_buf 0 0x1000 1
      (by decide) (by decide) (by decide)
    simp [find_guest_insn_by_addr, find_by_addr_loop, wideBlock] at h ⊢
    simp [h]
  · have h := insn_start_addr_wide_low_word wideBlock.gen_opparam_buf 0 0x1000 1
      (by decide) (by decide) (by decide)
    simp [find_guest_insn_by_addr, find_by_addr_loop, wideBlock] at h ⊢
    simp [h]


/-! ## Termination and bounds of the search loops -/

theorem chain_in_bounds (buf : List TCGOp) (l : List Nat) (oi : Nat)
    (h : isChainFrom buf oi l = true) : ∀ i ∈ l, 1 ≤ i ∧ i < buf.length := by
  intro i hi
  obtain ⟨hne, op, hop⟩ := chain_mem_lookup buf l oi h i hi
  exact ⟨Nat.pos_of_ne_zero hne, (List.getElem?_eq_some_iff.1 hop).1⟩

theorem chain_length_lt (buf : List TCGOp) (l : List Nat) (oi : Nat)
    (h : isChainFrom buf oi l = true) (hbuf : 0 < buf.length) : l.length < buf.length := by
  have hnd := chain_nodup buf l oi h
  have hsub : l ⊆ List.range' 1 (buf.length - 1) := by
    intro i hi
    have := chain_in_bounds buf l oi h i hi
    rw [List.mem_range'_1]
    omega
  have hle := (List.Nodup.subperm hnd hsub).length_le
  rw [List.length_range'] at hle
  omega

theorem find_by_addr_loop_no_op_fault (cfg : TargetConfig) (ctx : TCGContext) (addr : Nat) :
    ∀ (l : List Nat) (oi fuel : Nat), isChainFrom ctx.gen_op_buf oi l = true →
      l.length ≤ fuel →
      find_by_addr_loop cfg ctx addr fuel oi ≠ .fault .out_of_fuel ∧
      find_by_addr_loop cfg ctx addr fuel oi ≠ .fault .out_of_range ∧
      (paramsReadable cfg ctx l = true →
        ∃ r, find_by_addr_loop cfg ctx addr fuel oi = .ret r) := by
  intro l
  induction l with
  | nil =>
    intro oi fuel h _
    rw [isChainFrom_nil] at h
    subst h
    cases fuel <;> simp [find_by_addr_loop]
  | cons i rest ih =>
    intro oi fuel h hf
    rw [isChainFrom_cons] at h
    obtain ⟨hne, rfl, op, hop, hrest⟩ := h
    cases fuel with
    | zero => simp at hf
    | succ fuel =>
      have hf2 : rest.length ≤ fuel := by simpa using hf
      obtain ⟨ih1, ih2, ih3⟩ := ih op.next fuel hrest hf2
      have hpr : paramsReadable cfg ctx (oi :: rest) = true →
          paramsReadable cfg ctx rest = true := by
        intro hp
        simp only [paramsReadable, List.all_cons, Bool.and_eq_true] at hp ⊢
        exact hp.2
      simp only [find_by_addr_loop, hne, if_false, hop]
      by_cases hopc : op.opc = TCGOpcode.INDEX_op_insn_start
      · rw [if_pos hopc]
        cases ha : insn_start_addr cfg ctx.gen_opparam_buf op.args with
        | none =>
          refine ⟨by simp, by simp, ?_⟩
          intro hp
          simp [paramsReadable, hop, hopc, ha] at hp
        | some a =>
          by_cases haddr : addr = a
          · simp [haddr]
          · simp only [haddr, if_false]
            exact ⟨ih1, ih2, fun hp => ih3 (hpr hp)⟩
      · rw [if_neg hopc]
        exact ⟨ih1, ih2, fun hp => ih3 (hpr hp)⟩

/-- C13: for every op buffer whose next-chain from the sentinel comes back to
index 0 (the chain `l`), no op is visited twice (`l` has no repetition),
every visited index is inside the op buffer, and `l` is shorter than the
op buffer; with any budget of at least `|l|` loop iterations
`find_first_guest_insn` and `find_last_guest_insn` return, and
`find_guest_insn_by_addr` neither runs out of iterations nor indexes outside
the op buffer, and returns when the arguments of the markers are inside
the parameter buffer. -/
theorem searches_terminate_within_buffer (cfg : TargetConfig) (ctx : TCGContext)
    (l : List Nat) (addr fuel : Nat) (hchain : isOpChain ctx l = true)
    (hfuel : l.length ≤ fuel) :
    l.Nodup ∧ (∀ i ∈ l, i < ctx.gen_op_buf.length) ∧ l.length < ctx.gen_op_buf.length ∧
    (∃ r, find_first_guest_insn ctx fuel = .ret r) ∧
    (∃ r, find_last_guest_insn ctx fuel = .ret r) ∧
    find_guest_insn_by_addr cfg ctx addr fuel ≠ .fault .out_of_fuel ∧
    find_guest_insn_by_addr cfg ctx addr fuel ≠ .fault .out_of_range ∧
    (paramsReadable cfg ctx l = true →
      ∃ r, find_guest_insn_by_addr cfg ctx addr fuel = .ret r) := by
  have hfirst := find_first_guest_insn_eq_find ctx l fuel hchain hfuel
  have hlast := find_last_guest_insn_eq_lastBeforeExit ctx l fuel hchain hfuel
  unfold isOpChain at hchain
  unfold find_guest_insn_by_addr
  cases hs : ctx.gen_op_buf[0]? with
  | none => simp [hs] at hchain
  | some s =>
    simp only [hs] at hchain
    have hpos : 0 < ctx.gen_op_buf.length := (List.getElem?_eq_some_iff.1 hs).1
    obtain ⟨h1, h2, h3⟩ := find_by_addr_loop_no_op_fault cfg ctx addr l s.next fuel hchain hfuel
    exact ⟨chain_nodup _ l s.next hchain,
      fun i hi => (chain_in_bounds _ l s.next hchain i hi).2,
      chain_length_lt _ l s.next hchain hpos, ⟨_, hfirst⟩, ⟨_, hlast⟩, h1, h2, h3⟩

/-- Witness for C13 on the example block, with a budget equal to the number
of ops of the chain. -/
theorem searches_terminate_within_buffer_witness :
    ([1, 2, 3, 4, 5] : List Nat).Nodup ∧
    (∀ i ∈ ([1, 2, 3, 4, 5] : List Nat), i < exampleBlock.gen_op_buf.length) ∧
    ([1, 2, 3, 4, 5] : List Nat).length < exampleBlock.gen_op_buf.length ∧
    (∃ r, find_first_guest_insn exampleBlock 5 = .ret r) ∧
    (∃ r, find_last_guest_insn exampleBlock 5 = .ret r) ∧
    find_guest_insn_by_addr cfg64 exampleBlock 0x1004 5 ≠ .fault .out_of_fuel ∧
    find_guest_insn_by_addr cfg64 exampleBlock 0x1004 5 ≠ .fault .out_of_range ∧
    (paramsReadable cfg64 exampleBlock [1, 2, 3, 4, 5] = true →
      ∃ r, find_guest_insn_by_addr cfg64 exampleBlock 0x1004 5 = .ret r) :=
  searches_terminate_within_buffer cfg64 exampleBlock [1, 2, 3, 4, 5] 0x1004 5
    (by decide) (by decide)


/-! ## When `find_last_guest_insn` returns `NULL` -/

theorem lastBeforeExit_eq_none_iff (q : Nat → Bool) :
    ∀ (l : List Nat) (last_op : Option Nat),
      lastBeforeExit q l last_op = none ↔
        (∀ j ∈ l, q j = false) ∨ (∃ e post, l = e :: post ∧ q e = true ∧ last_op = none) := by
  intro l
  induction l with
  | nil => intro last_op; simp [lastBeforeExit]
  | cons i rest ih =>
    intro last_op
    simp only [lastBeforeExit]
    by_cases hq : q i = true
    · rw [if_pos hq]
      constructor
      · intro h
        exact Or.inr ⟨i, rest, rfl, hq, h⟩
      · rintro (h | ⟨e, post, hl, -, hlast⟩)
        · have := h i (List.mem_cons_self _ _)
          rw [hq] at this
          exact Bool.noConfusion this
        · exact hlast
    · have hqf : q i = false := by simpa using hq
      rw [if_neg hq, ih (some i)]
      constructor
      · rintro (h | ⟨e, post, -, -, hlast⟩)
        · left
          intro j hj
          rcases List.mem_cons.1 hj with hj | hj
          · rw [hj]; exact hqf
          · exact h j hj
        · exact Option.noConfusion hlast
      · rintro (h | ⟨e, post, hl, he, -⟩)
        · exact Or.inl (fun j hj => h j (List.mem_cons_of_mem _ hj))
        · have hie : i = e := (List.cons.inj hl).1
          rw [hie] at hq
          exact absurd he hq

/-- C14: on an op chain `l`, `find_last_guest_insn` returns `NULL` exactly when
`l` holds no `exit_tb` op or its first op is an `exit_tb` op; when `l` has
an `exit_tb` op the result is fixed by the ops up to the first one: it is
the op before it (`NULL` if there is none), whatever follows, further
`exit_tb` ops included. -/
theorem find_last_guest_insn_null_iff (ctx : TCGContext) (l : List Nat) (fuel : Nat)
    (hchain : isOpChain ctx l = true) (hfuel : l.length ≤ fuel) :
    (find_last_guest_insn ctx fuel = .ret none ↔
      (∀ j ∈ l, isExitTb ctx j = false) ∨ (∃ e post, l = e :: post ∧ isExitTb ctx e = true)) ∧
    (∀ pre e post, l = pre ++ e :: post → (∀ j ∈ pre, isExitTb ctx j = false) →
      isExitTb ctx e = true → find_last_guest_insn ctx fuel = .ret pre.getLast?) := by
  constructor
  · rw [find_last_guest_insn_eq_lastBeforeExit ctx l fuel hchain hfuel]
    have h := lastBeforeExit_eq_none_iff (isExitTb ctx) l none
    constructor
    · intro hret
      have hnone : lastBeforeExit (isExitTb ctx) l none = none := by
        simpa using hret
      rcases h.1 hnone with h1 | ⟨e, post, hl, he, -⟩
      · exact Or.inl h1
      · exact Or.inr ⟨e, post, hl, he⟩
    · intro hcases
      have : lastBeforeExit (isExitTb ctx) l none = none := by
        apply h.2
        rcases hcases with h1 | ⟨e, post, hl, he⟩
        · exact Or.inl h1
        · exact Or.inr ⟨e, post, hl, he, rfl⟩
      rw [this]
  · intro pre e post hl hpre he
    unfold isOpChain at hchain
    unfold find_last_guest_insn
    cases hs : ctx.gen_op_buf[0]? with
    | none => simp [hs] at hchain
    | some s =>
      simp only [hs] at hchain
      rw [hl] at hchain
      have hlen : pre.length < fuel := by
        have : l.length = pre.length + (post.length + 1) := by rw [hl]; simp
        omega
      show find_last_loop ctx.gen_op_buf fuel s.next none = _
      rw [find_last_loop_split ctx e post he pre s.next fuel none hchain hpre hlen]
      cases pre.getLast? <;> rfl

/-- Witness for C14: a block with a guest instruction but no `exit_tb` op. -/
theorem find_last_guest_insn_null_iff_witness :
    (find_last_guest_insn noExitBlock 2 = .ret none ↔
      (∀ j ∈ ([1, 2] : List Nat), isExitTb noExitBlock j = false) ∨
        (∃ e post, ([1, 2] : List Nat) = e :: post ∧ isExitTb noExitBlock e = true)) ∧
    (∀ pre e post, ([1, 2] : List Nat) = pre ++ e :: post →
      (∀ j ∈ pre, isExitTb noExitBlock j = false) →
      isExitTb noExitBlock e = true → find_last_guest_insn noExitBlock 2 = .ret pre.getLast?) :=
  find_last_guest_insn_null_iff noExitBlock [1, 2] 2 (by decide) (by decide)

/-! ## The guard of `check_cpu_exit` -/

/-- C15: `check_cpu_exit` invokes `cpu_loop_exit`, on `first_cpu`, exactly when
`panda_exit_cpu()`, `qemu_in_vcpu_thread()` and `first_cpu->running` are
all true; when one of them is false it returns normally and invokes
nothing; its `param` argument plays no role. -/
theorem check_cpu_exit_iff_all_three (env : CpuEnv) (param param2 : Nat) (log : ExecLog) :
    (check_cpu_exit env param log = cpu_loop_exit env.first_cpu log ↔
      (env.panda_exit_cpu = true ∧ env.qemu_in_vcpu_thread = true ∧
        env.first_cpu_running = true)) ∧
    (check_cpu_exit env param log = (Control.returned, log) ↔
      ¬ (env.panda_exit_cpu = true ∧ env.qemu_in_vcpu_thread = true ∧
        env.first_cpu_running = true)) ∧
    (check_cpu_exit env param log = cpu_loop_exit env.first_cpu log ∨
      check_cpu_exit env param log = (Control.returned, log)) ∧
    check_cpu_exit env param log = check_cpu_exit env param2 log := by
  cases h1 : env.panda_exit_cpu <;> cases h2 : env.qemu_in_vcpu_thread <;>
    cases h3 : env.first_cpu_running <;>
    simp [check_cpu_exit, cpu_loop_exit, h1, h2, h3]

/-- Instance of C15 in a state where only `first_cpu->running` is false. -/
theorem check_cpu_exit_iff_all_three_witness :
    (check_cpu_exit envNotRunning 5 { cpu_loop_exits := [] } =
        cpu_loop_exit envNotRunning.first_cpu { cpu_loop_exits := [] } ↔
      (envNotRunning.panda_exit_cpu = true ∧ envNotRunning.qemu_in_vcpu_thread = true ∧
        envNotRunning.first_cpu_running = true)) ∧
    (check_cpu_exit envNotRunning 5 { cpu_loop_exits := [] } =
        (Control.returned, { cpu_loop_exits := [] }) ↔
      ¬ (envNotRunning.panda_exit_cpu = true ∧ envNotRunning.qemu_in_vcpu_thread = true ∧
        envNotRunning.first_cpu_running = true)) ∧
    (check_cpu_exit envNotRunning 5 { cpu_loop_exits := [] } =
        cpu_loop_exit envNotRunning.first_cpu { cpu_loop_exits := [] } ∨
      check_cpu_exit envNotRunning 5 { cpu_loop_exits := [] } =
        (Control.returned, { cpu_loop_exits := [] })) ∧
    check_cpu_exit envNotRunning 5 { cpu_loop_exits := [] } =
      check_cpu_exit envNotRunning 6 { cpu_loop_exits := [] } :=
  check_cpu_exit_iff_all_three envNotRunning 5 6 { cpu_loop_exits := [] }

/-! ## Agreement of the first-marker and by-address searches -/

/-- C16: when a guest address fits a host register, on a well-formed op chain
on which `find_first_guest_insn` returns the marker `m`, whose recorded
address is `a`, `find_guest_insn_by_addr a` returns the same node `m`. -/
theorem find_guest_insn_by_addr_of_first (cfg : TargetConfig) (ctx : TCGContext)
    (l : List Nat) (fuel m a : Nat)
    (hcfg : cfg.TARGET_LONG_BITS ≤ cfg.TCG_TARGET_REG_BITS)
    (hchain : isOpChain ctx l = true) (hwf : markersWellFormed cfg ctx l = true)
    (hfuel : l.length ≤ fuel)
    (hfirst : find_first_guest_insn ctx fuel = .ret (some m))
    (haddr : args0At ctx m = some a) :
    find_guest_insn_by_addr cfg ctx a fuel = .ret (some m) := by
  rw [find_first_guest_insn_eq_find ctx l fuel hchain hfuel] at hfirst
  have hfind : l.find? (isInsnStart ctx) = some m := by simpa using hfirst
  rw [List.find?_eq_some] at hfind
  obtain ⟨hm, pre, post, hl, hpre⟩ := hfind
  unfold isOpChain at hchain
  unfold find_guest_insn_by_addr
  cases hs : ctx.gen_op_buf[0]? with
  | none => simp [hs] at hchain
  | some s =>
    simp only [hs] at hchain
    show find_by_addr_loop cfg ctx a fuel s.next = _
    rw [find_by_addr_loop_eq_find cfg ctx a hcfg l s.next fuel hchain hwf hfuel]
    congr 1
    rw [List.find?_eq_some]
    refine ⟨by simp [isMarkerAt, hm, haddr], pre, post, hl, ?_⟩
    intro j hj
    have hnot := hpre j hj
    have hjf : isInsnStart ctx j = false := by simpa using hnot
    simp [isMarkerAt, hjf]

/-- Witness for C16 on the example block: the first marker is op 1, recorded
address `0x1000`. -/
theorem find_guest_insn_by_addr_of_first_witness :
    find_guest_insn_by_addr cfg64 exampleBlock 0x1000 5 = .ret (some 1) :=
  find_guest_insn_by_addr_of_first cfg64 exampleBlock [1, 2, 3, 4, 5] 5 1 0x1000
    (by decide) (by decide) (by decide) (by decide) (by decide) (by decide)

end Panda
